import Mathlib

/-!
Verification development for the Rubiks-Cube repository
(`rubiks_cube/faces.py`, `rubiks_cube/cube.py`, `rubiks_cube/graph.py`).

Faces are modelled as total functions `Fin a → Fin b → Color` (numpy arrays
of shape `(a, b)`).  Dimensions are positive, as required by the spec
("a (height, width, length) triple of positive integers, each ≥ 1"), which we
record with `NeZero` instance hypotheses.

The modules `rubiks_cube/utils.py` (Color, Direction, TupleSlice) and
`rubiks_cube/movements.py` (CubeMove) are not part of the available sources;
the definitions below that come from them are modelled from the spec and are
marked as such in their doc comments.
-/

/-- Modelled from the spec: `Color` is "a closed enumeration of named facelet
colors" (`rubiks_cube/utils.py` is missing).  The six member names are the ones
used by `RubikCube.from_dims` in `cube.py`. -/
inductive Color where
  | WHITE
  | RED
  | BLUE
  | ORANGE
  | GREEN
  | YELLOW
deriving DecidableEq, Repr, Inhabited, Fintype

/-- Modelled from the spec: `Direction` is "one of {Up, Right, Down, Left},
relative to a face's own local grid orientation" (`rubiks_cube/utils.py` is
missing).  `faces.py` imports it as `Direc`. -/
inductive Direc where
  | U
  | R
  | D
  | L
deriving DecidableEq, Repr

/-- A face grid of shape `(a, b)`: `numpy` array `central_face` of a `Face`. -/
abbrev Grid (a b : Nat) := Fin a → Fin b → Color

/-- Modelled from the spec: the boundary-extraction rule
`Direction.generate_slice` — "a row/column index plus a traversal order
(forward or reversed) used to read or write the strip of facelets lying along
that edge of a 2-D grid".  The exact forward/reverse assignment per direction
is an implementation constant of the missing `utils.py`; we read all four
edges forward (U = first row, D = last row, L = first column, R = last
column), left to right and top to bottom. -/
def sliceGet {a b : Nat} [NeZero a] [NeZero b] : Direc → Grid a b → List Color
  | .U, g => List.ofFn (fun j => g ⟨0, Nat.pos_of_ne_zero (NeZero.ne a)⟩ j)
  | .D, g => List.ofFn (fun j => g ⟨a - 1, Nat.sub_lt (Nat.pos_of_ne_zero (NeZero.ne a)) one_pos⟩ j)
  | .L, g => List.ofFn (fun i => g i ⟨0, Nat.pos_of_ne_zero (NeZero.ne b)⟩)
  | .R, g => List.ofFn (fun i => g i ⟨b - 1, Nat.sub_lt (Nat.pos_of_ne_zero (NeZero.ne b)) one_pos⟩)

/-- Modelled from the spec: writing a strip back "into its neighbor through
the same boundary rule used to read it".  Companion of `sliceGet`; positions
outside the written strip keep their old color. -/
def sliceSet {a b : Nat} : Direc → Grid a b → List Color → Grid a b
  | .U, g, s => fun i j => if i.val = 0 then s.getD j.val default else g i j
  | .D, g, s => fun i j => if i.val = a - 1 then s.getD j.val default else g i j
  | .L, g, s => fun i j => if j.val = 0 then s.getD i.val default else g i j
  | .R, g, s => fun i j => if j.val = b - 1 then s.getD i.val default else g i j

/-- `_LIST_DIRECTIONS_TO_INV` from `faces.py`: directions that indicate whether
a "piece" should be inverted. -/
def list_directions_to_inv : List (List Direc) :=
  [[.U, .R], [.U], [.D, .L], [.D]]

/-- `_invert_piece` from `faces.py`: reverse the piece when `direction` is
negative, otherwise return it unchanged. -/
def invert_piece (piece : List Color) (direction : Int) : List Color :=
  if direction < 0 then piece.reverse else piece

/-- The `even` sign table of `_rotate_pieces` in `faces.py`. -/
def even_signs : List Int := [1, 1, -1, -1]

/-- The `odd` sign table of `_rotate_pieces` in `faces.py`. -/
def odd_signs : List Int := [1, -1, -1, 1]

/-- `collections.deque.rotate`: rotate a list to the right by `n` places. -/
def dequeRotate {α : Type} (l : List α) (n : Nat) : List α :=
  if l.length = 0 then l
  else l.drop (l.length - n % l.length) ++ l.take (l.length - n % l.length)

/-- `_rotate_pieces` from `faces.py`: conditionally invert each of the four
pieces according to the sign tables at index `times`, then rotate the deque of
pieces right by `times`. -/
def rotate_pieces (list_of_pieces : List (List Color)) (times : Nat) : List (List Color) :=
  let list_of_directions := [even_signs, odd_signs, even_signs, odd_signs]
  let new_list := (list_of_pieces.zip list_of_directions).map
    (fun pd => invert_piece pd.1 (pd.2.getD times 1))
  dequeRotate new_list times

/-- `Face._invert_pieces` from `faces.py`: piece `i` is reversed exactly when
the face's stored direction for slot `i` belongs to `_LIST_DIRECTIONS_TO_INV[i]`. -/
def invert_pieces (direcs : List Direc) (pieces : List (List Color)) : List (List Color) :=
  (List.range pieces.length).map (fun i =>
    if direcs.getD i .U ∈ list_directions_to_inv.getD i [] then
      (pieces.getD i []).reverse
    else pieces.getD i [])

/-- `np.rot90(g, k)`: counterclockwise quarter-turn rotation applied `k % 4`
times.  For odd `k` the shapes swap, so the odd cases are only meaningful on
square grids (`Face.rotate` only reaches them when the face is square; on a
non-square face numpy raises before this point). -/
def npRot90Pow {a b : Nat} (k : Nat) (g : Grid a b) : Grid a b :=
  match k % 4 with
  | 1 => if hab : a = b then fun i j => g (Fin.cast hab.symm j) (Fin.rev (Fin.cast hab i)) else g
  | 2 => fun i j => g (Fin.rev i) (Fin.rev j)
  | 3 => if hab : a = b then fun i j => g (Fin.cast hab.symm (Fin.rev j)) (Fin.cast hab i) else g
  | _ => g

/-- The six face names of a `RubikCube`. -/
inductive FaceName where
  | up
  | left
  | front
  | right
  | back
  | down
deriving DecidableEq, Repr, Fintype

/-- The six grids of a `RubikCube` (`cube.py`): front/back are `h × w`,
left/right are `h × l`, up/down are `l × w`. -/
structure CubeState (h w l : Nat) where
  up : Grid l w
  left : Grid h l
  front : Grid h w
  right : Grid h l
  back : Grid h w
  down : Grid l w

instance {h w l : Nat} : DecidableEq (CubeState h w l) := fun a b =>
  decidable_of_iff
    (a.up = b.up ∧ a.left = b.left ∧ a.front = b.front ∧
      a.right = b.right ∧ a.back = b.back ∧ a.down = b.down)
    (by cases a; cases b; simp [CubeState.mk.injEq])

instance {h w l : Nat} : Fintype (CubeState h w l) :=
  Fintype.ofEquiv (Grid l w × Grid h l × Grid h w × Grid h l × Grid h w × Grid l w)
    { toFun := fun p => ⟨p.1, p.2.1, p.2.2.1, p.2.2.2.1, p.2.2.2.2.1, p.2.2.2.2.2⟩
      invFun := fun c => ⟨c.up, c.left, c.front, c.right, c.back, c.down⟩
      left_inv := fun _ => rfl
      right_inv := fun _ => rfl }

/-- The `Direction` list stored by `Face.add_faces` for each face, taken from
the wiring table in `RubikCube.__init__` (`cube.py`), in slot order
(up, right, down, left). -/
def direc_list : FaceName → List Direc
  | .front => [.D, .L, .U, .R]
  | .back => [.U, .L, .D, .R]
  | .left => [.L, .L, .L, .R]
  | .right => [.R, .L, .R, .R]
  | .up => [.U, .U, .U, .U]
  | .down => [.D, .D, .D, .D]

/-- The expression `[self.up[u_s], self.right[r_s], self.down[d_s],
self.left[l_s]]` inside `Face.pieces`: the four neighbor border strips, read
through each neighbor's slice rule.  The neighbor and direction of each slot
come from the wiring table in `RubikCube.__init__`. -/
def rawPieces {h w l : Nat} [NeZero h] [NeZero w] [NeZero l]
    (c : CubeState h w l) : FaceName → List (List Color)
  | .front => [sliceGet .D c.up, sliceGet .L c.right, sliceGet .U c.down, sliceGet .R c.left]
  | .back => [sliceGet .U c.up, sliceGet .L c.left, sliceGet .D c.down, sliceGet .R c.right]
  | .left => [sliceGet .L c.up, sliceGet .L c.front, sliceGet .L c.down, sliceGet .R c.back]
  | .right => [sliceGet .R c.up, sliceGet .L c.back, sliceGet .R c.down, sliceGet .R c.front]
  | .up => [sliceGet .U c.back, sliceGet .U c.right, sliceGet .U c.front, sliceGet .U c.left]
  | .down => [sliceGet .D c.front, sliceGet .D c.right, sliceGet .D c.back, sliceGet .D c.left]

/-- `Face.pieces` (getter): read the four neighbor border strips, then apply
`_invert_pieces`. -/
def Face.pieces {h w l : Nat} [NeZero h] [NeZero w] [NeZero l]
    (c : CubeState h w l) (f : FaceName) : List (List Color) :=
  invert_pieces (direc_list f) (rawPieces c f)

/-- The slice assignments `self.up[u_s], self.right[r_s], self.down[d_s],
self.left[l_s] = ...` inside the `Face.pieces` setter: write the four strips
back through the same slices used to read them. -/
def writeStrips {h w l : Nat} (c : CubeState h w l) :
    FaceName → List (List Color) → CubeState h w l
  | .front, ws =>
    { c with
      up := sliceSet .D c.up (ws.getD 0 [])
      right := sliceSet .L c.right (ws.getD 1 [])
      down := sliceSet .U c.down (ws.getD 2 [])
      left := sliceSet .R c.left (ws.getD 3 []) }
  | .back, ws =>
    { c with
      up := sliceSet .U c.up (ws.getD 0 [])
      left := sliceSet .L c.left (ws.getD 1 [])
      down := sliceSet .D c.down (ws.getD 2 [])
      right := sliceSet .R c.right (ws.getD 3 []) }
  | .left, ws =>
    { c with
      up := sliceSet .L c.up (ws.getD 0 [])
      front := sliceSet .L c.front (ws.getD 1 [])
      down := sliceSet .L c.down (ws.getD 2 [])
      back := sliceSet .R c.back (ws.getD 3 []) }
  | .right, ws =>
    { c with
      up := sliceSet .R c.up (ws.getD 0 [])
      back := sliceSet .L c.back (ws.getD 1 [])
      down := sliceSet .R c.down (ws.getD 2 [])
      front := sliceSet .R c.front (ws.getD 3 []) }
  | .up, ws =>
    { c with
      back := sliceSet .U c.back (ws.getD 0 [])
      right := sliceSet .U c.right (ws.getD 1 [])
      front := sliceSet .U c.front (ws.getD 2 [])
      left := sliceSet .U c.left (ws.getD 3 []) }
  | .down, ws =>
    { c with
      front := sliceSet .D c.front (ws.getD 0 [])
      right := sliceSet .D c.right (ws.getD 1 [])
      back := sliceSet .D c.back (ws.getD 2 [])
      left := sliceSet .D c.left (ws.getD 3 []) }

/-- `Face.pieces` (setter): apply `_invert_pieces` to the value, then write
the four strips into the neighbors' slices. -/
def Face.pieces_set {h w l : Nat} (c : CubeState h w l) (f : FaceName)
    (value : List (List Color)) : CubeState h w l :=
  writeStrips c f (invert_pieces (direc_list f) value)

/-- `self.central_face = np.rot90(self.central_face, k)`, on the central face
of `f`. -/
def central_rot {h w l : Nat} (c : CubeState h w l) (k : Nat) :
    FaceName → CubeState h w l
  | .front => { c with front := npRot90Pow k c.front }
  | .back => { c with back := npRot90Pow k c.back }
  | .left => { c with left := npRot90Pow k c.left }
  | .right => { c with right := npRot90Pow k c.right }
  | .up => { c with up := npRot90Pow k c.up }
  | .down => { c with down := npRot90Pow k c.down }

/-- Expected lengths of the four written strips, per face, in slot order:
the numpy slice for slot `i` addresses this many cells.  A strip write with a
different length raises `ValueError` in numpy (no full move can complete via
broadcasting, see `Face.rotate`). -/
def slot_lens (h w l : Nat) : FaceName → List Nat
  | .front => [w, h, w, h]
  | .back => [w, h, w, h]
  | .left => [l, h, l, h]
  | .right => [l, h, l, h]
  | .up => [w, l, w, l]
  | .down => [w, l, w, l]

/-- `Face.rotate` from `faces.py`:
`self.pieces = _rotate_pieces(self.pieces, times % 4)` followed by
`self.central_face = np.rot90(self.central_face, 4 - times % 4)`.
The piece setter re-applies `_invert_pieces` and writes each strip back
through the same slice used to read it.  `none` models the `ValueError`
numpy raises when a written strip does not fit its slot (odd quarter turns of
a non-square face). -/
def Face.rotate {h w l : Nat} [NeZero h] [NeZero w] [NeZero l]
    (c : CubeState h w l) (f : FaceName) (times : Nat) : Option (CubeState h w l) :=
  let t := times % 4
  let new_pieces := rotate_pieces (Face.pieces c f) t
  let ws := invert_pieces (direc_list f) new_pieces
  if ws.map List.length = slot_lens h w l f then
    some (central_rot (Face.pieces_set c f new_pieces) (4 - t) f)
  else none

/-- `RubikCube.from_dims` (`cube.py`): the solved cube of the given
dimensions. -/
def RubikCube.from_dims_state (h w l : Nat) : CubeState h w l where
  front := fun _ _ => Color.RED
  back := fun _ _ => Color.ORANGE
  left := fun _ _ => Color.GREEN
  right := fun _ _ => Color.BLUE
  up := fun _ _ => Color.WHITE
  down := fun _ _ => Color.YELLOW

/-- Modelled from the spec: the closed set of move tokens of
`rubiks_cube/movements.py` (missing from the sources) — "a face letter in
{U, D, L, R, F, B} optionally followed by a modifier: no modifier = one
quarter turn in the canonical positive sense, `'` = one quarter turn in the
negative sense, `2` = a half turn".  `X3` stands for the primed token `X'`
(three positive quarter turns). -/
inductive CubeMove where
  | U | U2 | U3
  | D | D2 | D3
  | L | L2 | L3
  | R | R2 | R3
  | F | F2 | F3
  | B | B2 | B3
deriving DecidableEq, Repr, Fintype

/-- Modelled from the spec: the face a move token targets. -/
def CubeMove.face : CubeMove → FaceName
  | .U | .U2 | .U3 => .up
  | .D | .D2 | .D3 => .down
  | .L | .L2 | .L3 => .left
  | .R | .R2 | .R3 => .right
  | .F | .F2 | .F3 => .front
  | .B | .B2 | .B3 => .back

/-- Modelled from the spec: the turn amount of a move token,
"turn amount ∈ {+1, +2, +3 quarter-turns mod 4}". -/
def CubeMove.turns : CubeMove → Nat
  | .U | .D | .L | .R | .F | .B => 1
  | .U2 | .D2 | .L2 | .R2 | .F2 | .B2 => 2
  | .U3 | .D3 | .L3 | .R3 | .F3 | .B3 => 3

/-- Modelled from the spec: `CubeMove.move_the_cube` resolves the token to
(face, turns) and invokes that face's `rotate(turns)`. -/
def CubeMove.move_the_cube {h w l : Nat} [NeZero h] [NeZero w] [NeZero l]
    (m : CubeMove) (c : CubeState h w l) : Option (CubeState h w l) :=
  Face.rotate c m.face m.turns

/-- A `RubikCube` from `cube.py`: the six faces together with the set of
permitted movements.  (Equality and hash of the Python class use only the six
faces, see `RubikCube.eq_faces`.) -/
structure RubikCube (h w l : Nat) where
  state : CubeState h w l
  permitted_movements : Finset CubeMove

instance {h w l : Nat} : DecidableEq (RubikCube h w l) := fun a b =>
  decidable_of_iff (a.state = b.state ∧ a.permitted_movements = b.permitted_movements)
    (by cases a; cases b; simp [RubikCube.mk.injEq])

/-- `permitted_movements or {m for m in CubeMove}` in `RubikCube.__init__`:
`None` and the empty set are falsy in Python, so both select the full set of
defined moves. -/
def initPermitted (permitted_movements : Option (Finset CubeMove)) : Finset CubeMove :=
  match permitted_movements with
  | none => Finset.univ
  | some s => if s = ∅ then Finset.univ else s

/-- The `RubikCube(...)` constructor: wire the faces and store the permitted
movements (with Python's falsy-default behavior). -/
def RubikCube.mk' {h w l : Nat} (state : CubeState h w l)
    (permitted_movements : Option (Finset CubeMove)) : RubikCube h w l :=
  ⟨state, initPermitted permitted_movements⟩

/-- The two error kinds a move can raise: `NotPermittedMovementError` from
`cube.py`, and numpy's `ValueError` when a rotated strip does not fit its
destination slot. -/
inductive MoveErr where
  | notPermitted
  | valueErr
deriving DecidableEq, Repr

/-- `RubikCube._make_a_move_from_cube_move` (`cube.py`): raise
`NotPermittedMovementError` if the movement is not permitted, otherwise
deep-copy the cube, apply the movement to the copy and return it. -/
def RubikCube.make_a_move {h w l : Nat} [NeZero h] [NeZero w] [NeZero l]
    (rc : RubikCube h w l) (movement : CubeMove) : Except MoveErr (RubikCube h w l) :=
  if movement ∈ rc.permitted_movements then
    match movement.move_the_cube rc.state with
    | some s => .ok ⟨s, rc.permitted_movements⟩
    | none => .error .valueErr
  else .error .notPermitted

/-- Multiset of the colors of all cells of one grid. -/
def gridColors {a b : Nat} (g : Grid a b) : Multiset Color :=
  ∑ i : Fin a, ∑ j : Fin b, {g i j}

/-- Multiset of the colors of all facelets of all six grids of a cube. -/
def cubeColors {h w l : Nat} (c : CubeState h w l) : Multiset Color :=
  gridColors c.up + gridColors c.left + gridColors c.front +
    gridColors c.right + gridColors c.back + gridColors c.down

/-- Numeric code of a color (the enumeration order of `Color`). -/
def colorCode : Color → Nat
  | .WHITE => 0
  | .RED => 1
  | .BLUE => 2
  | .ORANGE => 3
  | .GREEN => 4
  | .YELLOW => 5

/-- The contents of a grid as a flat row-major list of color codes
(`_as_tuple(central_face)` in `faces.py`). -/
def gridDigits {a b : Nat} (g : Grid a b) : List Nat :=
  (List.ofFn (fun i => List.ofFn (fun j => colorCode (g i j)))).flatten

/-- Modelled from the spec: `Face.__hash__` is `hash(_as_tuple(central_face))`
— a deterministic function of the grid contents.  Python's tuple hash is
implementation-defined; we model it by the base-6 value of the row-major color
codes, which (for a fixed shape) is an injective function of the contents
(spec §4.4 relies on "hash-equal implies structurally equal"). -/
def Face.hash {a b : Nat} (g : Grid a b) : Nat :=
  (gridDigits g).foldl (fun acc d => acc * 6 + d) 1

/-- Modelled from the spec: `RubikCube.__hash__` is `hash(self.faces)` — a
deterministic combination of the six face hashes, in the order of the `faces`
property `(up, left, front, right, back, down)`.  We model the tuple hash by
iterated `Nat.pair`. -/
def cube_hash {h w l : Nat} (c : CubeState h w l) : Nat :=
  Nat.pair (Face.hash c.up) (Nat.pair (Face.hash c.left) (Nat.pair (Face.hash c.front)
    (Nat.pair (Face.hash c.right) (Nat.pair (Face.hash c.back) (Face.hash c.down)))))

/-- `Face.__eq__` (`faces.py`): `(self.central_face == other.central_face).all()`
— elementwise comparison of the two grids. -/
def Face.beq {a b : Nat} (g g' : Grid a b) : Bool :=
  decide (∀ i j, g i j = g' i j)

/-- `RubikCube.__eq__` (`cube.py`): compare the six faces pairwise, in the
fixed order of the `faces` property `(up, left, front, right, back, down)`. -/
def RubikCube.eq_faces {h w l : Nat} (A B : CubeState h w l) : Bool :=
  Face.beq A.up B.up && Face.beq A.left B.left && Face.beq A.front B.front &&
    Face.beq A.right B.right && Face.beq A.back B.back && Face.beq A.down B.down

/-- The unordered node pair of a `networkx` edge, represented canonically with
the endpoint of smaller hash first. -/
def mkEdge {h w l : Nat} (a b : CubeState h w l) : CubeState h w l × CubeState h w l :=
  if cube_hash a ≤ cube_hash b then (a, b) else (b, a)

/-- The `nx.Graph` built by `make_graph` (`graph.py`): the node list (in
insertion order, without duplicates), the list of undirected edges (each
stored once, as its canonical `mkEdge` pair), the `"move"` label sets
attached to the edges, and (as a ghost field for the analysis) the list of
configurations popped from the queue, in order. -/
structure ExploreGraph (h w l : Nat) where
  nodes : List (CubeState h w l)
  edges : List (CubeState h w l × CubeState h w l)
  labels : CubeState h w l × CubeState h w l → Finset CubeMove
  trace : List (CubeState h w l)

/-- `g[c]` in `networkx`: the neighbors of node `c`. -/
def neighborsOf {h w l : Nat} (g : ExploreGraph h w l) (c : CubeState h w l) :
    List (CubeState h w l) :=
  (g.edges.filter (fun e => decide (e.1 = c))).map Prod.snd ++
    (g.edges.filter (fun e => decide (e.2 = c))).map Prod.fst

/-- `current_rc.make_movements(m)` as used by the explorer: all explored cubes
share the same permitted-movement set, and each move produces a new state (or
raises). -/
def graphStep {h w l : Nat} [NeZero h] [NeZero w] [NeZero l]
    (perm : Finset CubeMove) (s : CubeState h w l) (m : CubeMove) :
    Except MoveErr (CubeState h w l) :=
  (RubikCube.make_a_move ⟨s, perm⟩ m).map RubikCube.state

/-- The body of the `for m in permitted_movements` loop in `make_graph`
(`graph.py`): apply each movement to `cur`; insert the result as a new node
(and push it on the queue) if unseen; create the edge with an empty move set
if absent; merge the movement into the edge's move set.  An exception from
`make_movements` aborts the whole exploration. -/
def expandNode {h w l : Nat} [NeZero h] [NeZero w] [NeZero l]
    (perm : Finset CubeMove) (cur : CubeState h w l) :
    List CubeMove → ExploreGraph h w l → List (CubeState h w l) →
      Except MoveErr (ExploreGraph h w l × List (CubeState h w l))
  | [], g, stack => .ok (g, stack)
  | m :: ms, g, stack =>
    match graphStep perm cur m with
    | .error e => .error e
    | .ok other =>
      let p1 : ExploreGraph h w l × List (CubeState h w l) :=
        if other ∈ g.nodes then (g, stack)
        else ({ g with nodes := g.nodes ++ [other] }, other :: stack)
      let key := mkEdge cur other
      let g2 : ExploreGraph h w l :=
        if other ∈ neighborsOf p1.1 cur then p1.1
        else { p1.1 with edges := p1.1.edges ++ [key],
                         labels := Function.update p1.1.labels key ∅ }
      let g3 : ExploreGraph h w l :=
        { g2 with labels := Function.update g2.labels key (insert m (g2.labels key)) }
      expandNode perm cur ms g3 p1.2

/-- The `while queue` loop of `make_graph` (`graph.py`).  `queue.pop()` pops
the most recently appended configuration, so the queue is represented with its
top at the head.  The `fuel` argument instruments termination: `none` means
the loop was cut off before the queue emptied (the termination theorem shows
enough fuel always exists). -/
def exploreLoop {h w l : Nat} [NeZero h] [NeZero w] [NeZero l]
    (perm : Finset CubeMove) (pml : List CubeMove) :
    Nat → List (CubeState h w l) → ExploreGraph h w l →
      Option (Except MoveErr (ExploreGraph h w l))
  | 0, _, _ => none
  | fuel + 1, queue, g =>
    match queue with
    | [] => some (.ok g)
    | cur :: rest =>
      match expandNode perm cur pml { g with trace := g.trace ++ [cur] } rest with
      | .error e => some (.error e)
      | .ok gs => exploreLoop perm pml fuel gs.2 gs.1

/-- The graph a fresh exploration starts from: the solved cube as single node,
no edges. -/
def initGraph {h w l : Nat} (s0 : CubeState h w l) : ExploreGraph h w l :=
  ⟨[s0], [], fun _ => ∅, []⟩

/-- `make_graph(dims, permitted_movements)` from `graph.py`: build the solved
cube (whose stored permitted set falls back to the full move set when the
given one is empty, per Python's falsy `or`), then explore exhaustively by
iterating the *given* movement collection.  The fuel `6 ^ (2*(hw+hl+lw)) + 1`
is an upper bound for the finite configuration space (see the termination
theorem); the loop stops as soon as the queue empties. -/
def make_graph (h w l : Nat) [NeZero h] [NeZero w] [NeZero l]
    (pml : List CubeMove) : Option (Except MoveErr (ExploreGraph h w l)) :=
  let perm : Finset CubeMove := if pml = [] then Finset.univ else pml.toFinset
  let rc := RubikCube.from_dims_state h w l
  exploreLoop perm pml (6 ^ (2 * (h * w + h * l + l * w)) + 1) [rc] (initGraph rc)

/-- Node and edge count of an exploration result (for stating concrete runs). -/
def runCounts {h w l : Nat} (o : Option (Except MoveErr (ExploreGraph h w l))) :
    Option (Except MoveErr (Nat × Nat)) :=
  o.map (fun r => r.map (fun g => (g.nodes.length, g.edges.length)))

/-- The concrete graph explored from the solved 1x1x1 cube with the single
permitted movement U2, extracted from `make_graph` (used to instantiate
general theorems at a concrete exploration). -/
def exploredGraph_111_U2 : ExploreGraph 1 1 1 :=
  ((make_graph 1 1 1 [CubeMove.U2]).getD
      (Except.ok (initGraph (RubikCube.from_dims_state 1 1 1)))).toOption.getD
    (initGraph (RubikCube.from_dims_state 1 1 1))

/-- The nodes sorted by hash value (`order_list_of_rc` in `make_graph`): this
is the order in which dense integer ids are assigned. -/
def orderedNodes {h w l : Nat} (g : ExploreGraph h w l) : List (CubeState h w l) :=
  List.insertionSort (fun a b => cube_hash a ≤ cube_hash b) g.nodes

/-- The dense integer id (`g.nodes[rc]["id"]`) of a node: its position in the
hash-sorted node list. -/
def node_id {h w l : Nat} (g : ExploreGraph h w l) (c : CubeState h w l) : Nat :=
  (orderedNodes g).indexOf c

/-- `make_simple_graph` (`graph.py`): the dictionary mapping each node's id to
the set of its neighbors' ids. -/
def make_simple_graph {h w l : Nat} (g : ExploreGraph h w l) : List (Nat × List Nat) :=
  g.nodes.map (fun n => (node_id g n, ((neighborsOf g n).map (node_id g)).dedup))

/-- `sort_list` (`graph.py`): sort a collection of ids ascending. -/
def sort_list (lst : List Nat) : List Nat :=
  List.insertionSort (fun a b => a ≤ b) lst

/-- The `(u, v)` id pairs written by `generate_file` (`graph.py`), in writing
order: for each key `u` ascending, for each neighbor id `v` ascending, the
pair is written when `u < v`. -/
def generate_file_pairs {h w l : Nat} (g : ExploreGraph h w l) : List (Nat × Nat) :=
  let sg := make_simple_graph g
  (sort_list (sg.map Prod.fst)).flatMap (fun u =>
    (sort_list ((sg.lookup u).getD [])).filterMap (fun v =>
      if u < v then some (u, v) else none))

/-- `generate_file` (`graph.py`): the lines of the exported file, in order —
first `"<node count> <edge count>"`, then one line `"<u> <v>"` per written
pair. -/
def generate_file {h w l : Nat} (g : ExploreGraph h w l) : List String :=
  (toString g.nodes.length ++ " " ++ toString g.edges.length) ::
    (generate_file_pairs g).map (fun p => toString p.1 ++ " " ++ toString p.2)

/-- `neighborsOf` with the edge list as an explicit argument (used to reason
about the serializer by induction on the edge list). -/
def nbrsOfE {h w l : Nat} (E : List (CubeState h w l × CubeState h w l))
    (c : CubeState h w l) : List (CubeState h w l) :=
  (E.filter (fun e => decide (e.1 = c))).map Prod.snd ++
    (E.filter (fun e => decide (e.2 = c))).map Prod.fst

/-- The id pairs the serializer emits for one node `n` (id function and edge
list explicit): the ids of `n`'s neighbors that exceed `n`'s own id, paired
with it. -/
def edgeBucket {h w l : Nat} (nid : CubeState h w l → Nat)
    (E : List (CubeState h w l × CubeState h w l)) (n : CubeState h w l) :
    List (Nat × Nat) :=
  ((nbrsOfE E n).map nid).filterMap
    (fun v => if nid n < v then some (nid n, v) else none)

/-- The contribution of one extra edge `e` to node `n`'s emitted pairs. -/
def bucketAdd {h w l : Nat} (nid : CubeState h w l → Nat)
    (e : CubeState h w l × CubeState h w l) (n : CubeState h w l) :
    List (Nat × Nat) :=
  (if e.1 = n then if nid n < nid e.2 then [(nid n, nid e.2)] else [] else []) ++
    (if e.2 = n then if nid n < nid e.1 then [(nid n, nid e.1)] else [] else [])

/-- The permitted-movement set `make_graph` stores in the explored cubes
(Python's falsy `or`: the empty collection falls back to the full move
set). -/
def permOf (pml : List CubeMove) : Finset CubeMove :=
  if pml = [] then Finset.univ else pml.toFinset

/-- The non-loop edges of an edge list (a networkx self-loop is stored like
any other edge, but the serializer's `u < v` filter never writes a line for
it). -/
def noLoopEdges {h w l : Nat} (E : List (CubeState h w l × CubeState h w l)) :
    List (CubeState h w l × CubeState h w l) :=
  E.filter (fun e => !decide (e.1 = e.2))

/-- One explorer step as a total function (keeping the current configuration
on failure), used to write down concrete reachable configurations. -/
def stepGetD {h w l : Nat} [NeZero h] [NeZero w] [NeZero l]
    (perm : Finset CubeMove) (s : CubeState h w l) (m : CubeMove) :
    CubeState h w l :=
  (graphStep perm s m).toOption.getD s

/-- The configuration of the 1x2x1 cube reached from the solved state by a
given movement sequence, with permitted set {U2, R2, F2}. -/
def chainState121 (ms : List CubeMove) : CubeState 1 2 1 :=
  ms.foldl (stepGetD (permOf [CubeMove.U2, CubeMove.R2, CubeMove.F2]))
    (RubikCube.from_dims_state 1 2 1)

/-- The configuration of the 1x1x1 cube reached from the solved state by a
given movement sequence, with permitted set {U2}. -/
def chain111 (ms : List CubeMove) : CubeState 1 1 1 :=
  ms.foldl (stepGetD (permOf [CubeMove.U2])) (RubikCube.from_dims_state 1 1 1)

/-- The id pair an undirected edge contributes to the exported file: its two
endpoint ids in increasing order. -/
def idPair {h w l : Nat} (g : ExploreGraph h w l)
    (e : CubeState h w l × CubeState h w l) : Nat × Nat :=
  (min (node_id g e.1) (node_id g e.2), max (node_id g e.1) (node_id g e.2))

/-- The mutable arena of face grids: Python `Face` objects hold `numpy`
arrays that moves mutate in place; the cube's six faces live at indices of
three shape-homogeneous pools (front/back, left/right, up/down).  `fbN`,
`lrN`, `udN` are the next fresh indices. -/
structure FaceStore (h w l : Nat) where
  fb : Nat → Grid h w
  lr : Nat → Grid h l
  ud : Nat → Grid l w
  fbN : Nat
  lrN : Nat
  udN : Nat

/-- A `RubikCube` object: references (pool indices) to its six `Face`
objects, plus its permitted-movement set. -/
structure CubeRef where
  fI : Nat
  bI : Nat
  lI : Nat
  rI : Nat
  uI : Nat
  dI : Nat
  perm : Finset CubeMove

/-- The object references a cube holds are all live (point below the
allocation frontier of each pool). -/
def validRef {h w l : Nat} (s : FaceStore h w l) (c : CubeRef) : Prop :=
  c.fI < s.fbN ∧ c.bI < s.fbN ∧ c.lI < s.lrN ∧ c.rI < s.lrN ∧ c.uI < s.udN ∧ c.dI < s.udN

/-- The six grids of a cube object, read from the store. -/
def readCube {h w l : Nat} (s : FaceStore h w l) (c : CubeRef) : CubeState h w l :=
  { front := s.fb c.fI, back := s.fb c.bI, left := s.lr c.lI,
    right := s.lr c.rI, up := s.ud c.uI, down := s.ud c.dI }

/-- `copy.deepcopy` on a `RubikCube` (`RubikCube.__deepcopy__` with the memo
dictionary): allocate six fresh `Face` objects whose grids copy the
originals' contents, and a new cube object referencing them; the permitted
set is copied unchanged. -/
def deepcopyCube {h w l : Nat} (s : FaceStore h w l) (c : CubeRef) :
    FaceStore h w l × CubeRef :=
  (⟨Function.update (Function.update s.fb s.fbN (s.fb c.fI)) (s.fbN + 1) (s.fb c.bI),
    Function.update (Function.update s.lr s.lrN (s.lr c.lI)) (s.lrN + 1) (s.lr c.rI),
    Function.update (Function.update s.ud s.udN (s.ud c.uI)) (s.udN + 1) (s.ud c.dI),
    s.fbN + 2, s.lrN + 2, s.udN + 2⟩,
   ⟨s.fbN, s.fbN + 1, s.lrN, s.lrN + 1, s.udN, s.udN + 1, c.perm⟩)

/-- Write the six grids of a rotated state back into the cells of the cube
object that the rotation mutated. -/
def writeCube {h w l : Nat} (s : FaceStore h w l) (c : CubeRef)
    (st : CubeState h w l) : FaceStore h w l :=
  { s with
    fb := Function.update (Function.update s.fb c.fI st.front) c.bI st.back,
    lr := Function.update (Function.update s.lr c.lI st.left) c.rI st.right,
    ud := Function.update (Function.update s.ud c.uI st.up) c.dI st.down }

/-- `RubikCube._make_a_move_from_cube_move` at the object level: check the
permitted set (raising `NotPermittedMovementError` before anything is
copied or written), deep-copy the cube, rotate the copy's faces in place and
return the copy.  The returned store is the store at return/raise time. -/
def make_a_move_obj {h w l : Nat} [NeZero h] [NeZero w] [NeZero l]
    (s : FaceStore h w l) (c : CubeRef) (m : CubeMove) :
    FaceStore h w l × Except MoveErr CubeRef :=
  if m ∈ c.perm then
    let sc := deepcopyCube s c
    match Face.rotate (readCube sc.1 sc.2) m.face m.turns with
    | some st => (writeCube sc.1 sc.2 st, .ok sc.2)
    | none => (sc.1, .error .valueErr)
  else (s, .error .notPermitted)


/-- Decidable equality of `Except` results (not provided by core). -/
instance {e a : Type} [DecidableEq e] [DecidableEq a] : DecidableEq (Except e a) := fun x y =>
  match x, y with
  | .ok u, .ok v => if h : u = v then isTrue (by rw [h]) else isFalse (by simp [h])
  | .error u, .error v => if h : u = v then isTrue (by rw [h]) else isFalse (by simp [h])
  | .ok _, .error _ => isFalse (by simp)
  | .error _, .ok _ => isFalse (by simp)

/-! ## Basic lemmas about slices and the piece pipeline -/

theorem getD_ofFn {α : Type} [Inhabited α] {n : Nat} (f : Fin n → α) (j : Fin n) :
    (List.ofFn f).getD j.val default = f j := by
  rw [List.getD_eq_getElem?_getD, List.getElem?_eq_getElem (by simp [j.isLt])]
  simp [List.getElem_ofFn]

theorem ofFn_getD {α : Type} [Inhabited α] {n : Nat} (s : List α) (hs : s.length = n) :
    List.ofFn (fun j : Fin n => s.getD j.val default) = s := by
  apply List.ext_getElem (by simp [hs])
  intro i h1 h2
  rw [List.getElem_ofFn]
  rw [List.getD_eq_getElem?_getD, List.getElem?_eq_getElem h2]
  rfl

theorem sliceGet_length_U {a b : Nat} [NeZero a] [NeZero b] (g : Grid a b) :
    (sliceGet .U g).length = b := by simp [sliceGet]

theorem sliceGet_length_D {a b : Nat} [NeZero a] [NeZero b] (g : Grid a b) :
    (sliceGet .D g).length = b := by simp [sliceGet]

theorem sliceGet_length_L {a b : Nat} [NeZero a] [NeZero b] (g : Grid a b) :
    (sliceGet .L g).length = a := by simp [sliceGet]

theorem sliceGet_length_R {a b : Nat} [NeZero a] [NeZero b] (g : Grid a b) :
    (sliceGet .R g).length = a := by simp [sliceGet]

theorem sliceGet_sliceSet_U {a b : Nat} [NeZero a] [NeZero b] (g : Grid a b)
    (s : List Color) (hs : s.length = b) : sliceGet .U (sliceSet .U g s) = s := by
  have h1 : sliceGet .U (sliceSet .U g s) =
      List.ofFn (fun j : Fin b => s.getD j.val default) := rfl
  exact h1.trans (ofFn_getD s hs)
theorem sliceGet_sliceSet_D {a b : Nat} [NeZero a] [NeZero b] (g : Grid a b)
    (s : List Color) (hs : s.length = b) : sliceGet .D (sliceSet .D g s) = s := by
  apply List.ext_getElem (by simp [sliceGet, hs])
  intro i hi1 hi2
  simp only [sliceGet, List.getElem_ofFn, sliceSet]
  rw [if_pos trivial]
  rw [List.getD_eq_getElem?_getD, List.getElem?_eq_getElem hi2]
  rfl
theorem sliceGet_sliceSet_L {a b : Nat} [NeZero a] [NeZero b] (g : Grid a b)
    (s : List Color) (hs : s.length = a) : sliceGet .L (sliceSet .L g s) = s := by
  have h1 : sliceGet .L (sliceSet .L g s) =
      List.ofFn (fun i : Fin a => s.getD i.val default) := rfl
  exact h1.trans (ofFn_getD s hs)
theorem sliceGet_sliceSet_R {a b : Nat} [NeZero a] [NeZero b] (g : Grid a b)
    (s : List Color) (hs : s.length = a) : sliceGet .R (sliceSet .R g s) = s := by
  apply List.ext_getElem (by simp [sliceGet, hs])
  intro i hi1 hi2
  simp only [sliceGet, List.getElem_ofFn, sliceSet]
  rw [if_pos trivial]
  rw [List.getD_eq_getElem?_getD, List.getElem?_eq_getElem hi2]
  rfl
theorem sliceSet_sliceGet_U {a b : Nat} [NeZero a] [NeZero b] (g : Grid a b) :
    sliceSet .U g (sliceGet .U g) = g := by
  funext i j
  show (if i.val = 0 then (sliceGet .U g).getD j.val default else g i j) = g i j
  split
  · rename_i h0
    have hi : i = ⟨0, Nat.pos_of_ne_zero (NeZero.ne a)⟩ := Fin.ext h0
    rw [hi]
    exact getD_ofFn _ j
  · rfl

theorem sliceSet_sliceGet_D {a b : Nat} [NeZero a] [NeZero b] (g : Grid a b) :
    sliceSet .D g (sliceGet .D g) = g := by
  funext i j
  show (if i.val = a - 1 then (sliceGet .D g).getD j.val default else g i j) = g i j
  split
  · rename_i h0
    have hi : i = ⟨a - 1, Nat.sub_lt (Nat.pos_of_ne_zero (NeZero.ne a)) one_pos⟩ := Fin.ext h0
    rw [hi]
    exact getD_ofFn _ j
  · rfl

theorem sliceSet_sliceGet_L {a b : Nat} [NeZero a] [NeZero b] (g : Grid a b) :
    sliceSet .L g (sliceGet .L g) = g := by
  funext i j
  show (if j.val = 0 then (sliceGet .L g).getD i.val default else g i j) = g i j
  split
  · rename_i h0
    have hj : j = ⟨0, Nat.pos_of_ne_zero (NeZero.ne b)⟩ := Fin.ext h0
    rw [hj]
    exact getD_ofFn _ i
  · rfl

theorem sliceSet_sliceGet_R {a b : Nat} [NeZero a] [NeZero b] (g : Grid a b) :
    sliceSet .R g (sliceGet .R g) = g := by
  funext i j
  show (if j.val = b - 1 then (sliceGet .R g).getD i.val default else g i j) = g i j
  split
  · rename_i h0
    have hj : j = ⟨b - 1, Nat.sub_lt (Nat.pos_of_ne_zero (NeZero.ne b)) one_pos⟩ := Fin.ext h0
    rw [hj]
    exact getD_ofFn _ i
  · rfl

theorem sliceSet_sliceSet {a b : Nat} (d : Direc) (g : Grid a b) (s1 s2 : List Color) :
    sliceSet d (sliceSet d g s1) s2 = sliceSet d g s2 := by
  cases d <;> (funext i j; simp only [sliceSet]; split <;> rename_i hc <;> simp [hc])

theorem invert_pieces_four (dl : List Direc) (p0 p1 p2 p3 : List Color) :
    invert_pieces dl [p0, p1, p2, p3] =
      [if dl.getD 0 .U ∈ [Direc.U, Direc.R] then p0.reverse else p0,
       if dl.getD 1 .U ∈ [Direc.U] then p1.reverse else p1,
       if dl.getD 2 .U ∈ [Direc.D, Direc.L] then p2.reverse else p2,
       if dl.getD 3 .U ∈ [Direc.D] then p3.reverse else p3] := rfl

theorem invert_pieces_invert_pieces (dl : List Direc) (p0 p1 p2 p3 : List Color) :
    invert_pieces dl (invert_pieces dl [p0, p1, p2, p3]) = [p0, p1, p2, p3] := by
  rw [invert_pieces_four, invert_pieces_four]
  split_ifs <;> simp

theorem rotate_pieces_one (p0 p1 p2 p3 : List Color) :
    rotate_pieces [p0, p1, p2, p3] 1 = [p3.reverse, p0, p1.reverse, p2] := rfl

theorem rotate_pieces_two (p0 p1 p2 p3 : List Color) :
    rotate_pieces [p0, p1, p2, p3] 2 = [p2.reverse, p3.reverse, p0.reverse, p1.reverse] := rfl

theorem rotate_pieces_three (p0 p1 p2 p3 : List Color) :
    rotate_pieces [p0, p1, p2, p3] 3 = [p1, p2.reverse, p3, p0.reverse] := rfl

theorem rotate_pieces_cancel (p0 p1 p2 p3 : List Color) (t : Nat)
    (ht : t = 1 ∨ t = 2 ∨ t = 3) :
    rotate_pieces (rotate_pieces [p0, p1, p2, p3] t) (4 - t) = [p0, p1, p2, p3] := by
  rcases ht with rfl | rfl | rfl
  · rw [rotate_pieces_one]
    show rotate_pieces _ 3 = _
    rw [rotate_pieces_three]
    simp
  · rw [rotate_pieces_two]
    show rotate_pieces _ 2 = _
    rw [rotate_pieces_two]
    simp
  · rw [rotate_pieces_three]
    show rotate_pieces _ 1 = _
    rw [rotate_pieces_one]
    simp

theorem map_length_invert_pieces (dl : List Direc) (p0 p1 p2 p3 : List Color) :
    (invert_pieces dl [p0, p1, p2, p3]).map List.length =
      [p0.length, p1.length, p2.length, p3.length] := by
  rw [invert_pieces_four]
  split_ifs <;> simp

theorem npRot90Pow_two {a b : Nat} (g : Grid a b) :
    npRot90Pow 2 g = fun i j => g (Fin.rev i) (Fin.rev j) := rfl

theorem npRot90Pow_one_sq {a : Nat} (g : Grid a a) :
    npRot90Pow 1 g = fun i j => g j (Fin.rev i) := by
  show (if hab : a = a then
      (fun i j => g (Fin.cast hab.symm j) (Fin.rev (Fin.cast hab i))) else g) = _
  rw [dif_pos rfl]
  rfl

theorem npRot90Pow_three_sq {a : Nat} (g : Grid a a) :
    npRot90Pow 3 g = fun i j => g (Fin.rev j) i := by
  show (if hab : a = a then
      (fun i j => g (Fin.cast hab.symm (Fin.rev j)) (Fin.cast hab i)) else g) = _
  rw [dif_pos rfl]
  rfl

theorem npRot_two_two {a b : Nat} (g : Grid a b) :
    npRot90Pow 2 (npRot90Pow 2 g) = g := by
  funext i j
  show g (Fin.rev (Fin.rev i)) (Fin.rev (Fin.rev j)) = g i j
  rw [Fin.rev_rev, Fin.rev_rev]

theorem npRot_one_three {a : Nat} (g : Grid a a) :
    npRot90Pow 1 (npRot90Pow 3 g) = g := by
  rw [npRot90Pow_three_sq, npRot90Pow_one_sq]
  funext i j
  simp [Fin.rev_rev]

theorem npRot_three_one {a : Nat} (g : Grid a a) :
    npRot90Pow 3 (npRot90Pow 1 g) = g := by
  rw [npRot90Pow_one_sq, npRot90Pow_three_sq]
  funext i j
  simp [Fin.rev_rev]

theorem rawPieces_map_length {h w l : Nat} [NeZero h] [NeZero w] [NeZero l]
    (c : CubeState h w l) (f : FaceName) :
    (rawPieces c f).map List.length = slot_lens h w l f := by
  cases f <;>
    simp [rawPieces, slot_lens, sliceGet_length_U, sliceGet_length_D,
      sliceGet_length_L, sliceGet_length_R]

theorem list_eq_four_of_length {α : Type} {ws : List α} (hl : ws.length = 4) :
    ∃ a b c d, ws = [a, b, c, d] := by
  rcases ws with _ | ⟨a, _ | ⟨b, _ | ⟨c, _ | ⟨d, _ | ⟨e, tl⟩⟩⟩⟩⟩ <;> simp at hl ⊢

theorem slot_lens_length {h w l : Nat} (f : FaceName) : (slot_lens h w l f).length = 4 := by
  cases f <;> rfl

theorem writeStrips_writeStrips {h w l : Nat} (c : CubeState h w l) (f : FaceName)
    (ws1 ws2 : List (List Color)) :
    writeStrips (writeStrips c f ws1) f ws2 = writeStrips c f ws2 := by
  cases f <;> simp [writeStrips, sliceSet_sliceSet]

theorem writeStrips_rawPieces {h w l : Nat} [NeZero h] [NeZero w] [NeZero l]
    (c : CubeState h w l) (f : FaceName) :
    writeStrips c f (rawPieces c f) = c := by
  cases f <;>
    simp [writeStrips, rawPieces, sliceSet_sliceGet_U, sliceSet_sliceGet_D,
      sliceSet_sliceGet_L, sliceSet_sliceGet_R]

theorem rawPieces_central_rot {h w l : Nat} [NeZero h] [NeZero w] [NeZero l]
    (c : CubeState h w l) (k : Nat) (f : FaceName) :
    rawPieces (central_rot c k f) f = rawPieces c f := by
  cases f <;> rfl

theorem writeStrips_central_rot {h w l : Nat} (c : CubeState h w l) (k : Nat)
    (f : FaceName) (ws : List (List Color)) :
    writeStrips (central_rot c k f) f ws = central_rot (writeStrips c f ws) k f := by
  cases f <;> rfl

theorem rawPieces_shape {h w l : Nat} [NeZero h] [NeZero w] [NeZero l]
    (c : CubeState h w l) (f : FaceName) :
    ∃ r0 r1 r2 r3, rawPieces c f = [r0, r1, r2, r3] := by
  cases f <;> exact ⟨_, _, _, _, rfl⟩

theorem rawPieces_writeStrips {h w l : Nat} [NeZero h] [NeZero w] [NeZero l]
    (c : CubeState h w l) (f : FaceName) (ws : List (List Color))
    (hw : ws.map List.length = slot_lens h w l f) :
    rawPieces (writeStrips c f ws) f = ws := by
  have hlen : ws.length = 4 := by
    have h4 := congrArg List.length hw
    simpa [slot_lens_length] using h4
  obtain ⟨w0, w1, w2, w3, rfl⟩ := list_eq_four_of_length hlen
  cases f <;>
    simp_all [slot_lens, rawPieces, writeStrips,
      sliceGet_sliceSet_U, sliceGet_sliceSet_D, sliceGet_sliceSet_L, sliceGet_sliceSet_R]

/-- The unfolded form of `Face.rotate`. -/
theorem Face.rotate_def {h w l : Nat} [NeZero h] [NeZero w] [NeZero l]
    (c : CubeState h w l) (f : FaceName) (times : Nat) :
    Face.rotate c f times =
      if (invert_pieces (direc_list f)
            (rotate_pieces (Face.pieces c f) (times % 4))).map List.length =
          slot_lens h w l f then
        some (central_rot
          (Face.pieces_set c f (rotate_pieces (Face.pieces c f) (times % 4)))
          (4 - times % 4) f)
      else none := rfl

theorem second_strips_q (dl : List Direc) (q0 q1 q2 q3 : List Color) (t : Nat)
    (ht : t = 1 ∨ t = 2 ∨ t = 3) :
    invert_pieces dl (rotate_pieces
        (invert_pieces dl (invert_pieces dl (rotate_pieces [q0, q1, q2, q3] t)))
        (4 - t)) =
      invert_pieces dl [q0, q1, q2, q3] := by
  rcases ht with rfl | rfl | rfl
  · rw [rotate_pieces_one, invert_pieces_invert_pieces]
    show invert_pieces dl (rotate_pieces _ 3) = _
    rw [rotate_pieces_three]
    simp
  · rw [rotate_pieces_two, invert_pieces_invert_pieces]
    show invert_pieces dl (rotate_pieces _ 2) = _
    rw [rotate_pieces_two]
    simp
  · rw [rotate_pieces_three, invert_pieces_invert_pieces]
    show invert_pieces dl (rotate_pieces _ 1) = _
    rw [rotate_pieces_one]
    simp

theorem map_length_ws_one (dl : List Direc) (q0 q1 q2 q3 : List Color) :
    (invert_pieces dl (rotate_pieces [q0, q1, q2, q3] 1)).map List.length =
      [q3.length, q0.length, q1.length, q2.length] := by
  rw [rotate_pieces_one, map_length_invert_pieces]
  simp

theorem map_length_ws_two (dl : List Direc) (q0 q1 q2 q3 : List Color) :
    (invert_pieces dl (rotate_pieces [q0, q1, q2, q3] 2)).map List.length =
      [q2.length, q3.length, q0.length, q1.length] := by
  rw [rotate_pieces_two, map_length_invert_pieces]
  simp

theorem map_length_ws_three (dl : List Direc) (q0 q1 q2 q3 : List Color) :
    (invert_pieces dl (rotate_pieces [q0, q1, q2, q3] 3)).map List.length =
      [q1.length, q2.length, q3.length, q0.length] := by
  rw [rotate_pieces_three, map_length_invert_pieces]
  simp

/-- The squareness condition on the rotated face's own grid. -/
def faceSq (h w l : Nat) : FaceName → Prop
  | .front => h = w
  | .back => h = w
  | .left => h = l
  | .right => h = l
  | .up => l = w
  | .down => l = w

theorem faceSq_shift_one {h w l : Nat} (f : FaceName) (x0 x1 x2 x3 : Nat)
    (hraw : [x0, x1, x2, x3] = slot_lens h w l f)
    (hshift : [x3, x0, x1, x2] = slot_lens h w l f) : faceSq h w l f := by
  cases f <;> (simp [slot_lens] at hraw hshift; dsimp [faceSq]; omega)

theorem faceSq_shift_three {h w l : Nat} (f : FaceName) (x0 x1 x2 x3 : Nat)
    (hraw : [x0, x1, x2, x3] = slot_lens h w l f)
    (hshift : [x1, x2, x3, x0] = slot_lens h w l f) : faceSq h w l f := by
  cases f <;> (simp [slot_lens] at hraw hshift; dsimp [faceSq]; omega)

theorem central_cancel_one {h w l : Nat} (c : CubeState h w l) (f : FaceName)
    (hsq : faceSq h w l f) : central_rot (central_rot c 3 f) 1 f = c := by
  cases f <;> (dsimp [faceSq] at hsq; subst hsq; simp [central_rot, npRot_one_three])

theorem central_cancel_two {h w l : Nat} (c : CubeState h w l) (f : FaceName) :
    central_rot (central_rot c 2 f) 2 f = c := by
  cases f <;> simp [central_rot, npRot_two_two]

theorem central_cancel_three {h w l : Nat} (c : CubeState h w l) (f : FaceName)
    (hsq : faceSq h w l f) : central_rot (central_rot c 1 f) 3 f = c := by
  cases f <;> (dsimp [faceSq] at hsq; subst hsq; simp [central_rot, npRot_three_one])

set_option maxHeartbeats 2000000 in
/-- C1: rotating a face `k` quarter turns and then `(4-k) % 4` quarter turns
restores the original six-grid configuration. -/
theorem quarter_turn_identity {h w l : Nat} [NeZero h] [NeZero w] [NeZero l]
    (c : CubeState h w l) (f : FaceName) (k : Nat) (hk : k = 1 ∨ k = 2 ∨ k = 3)
    (c1 : CubeState h w l) (hs : Face.rotate c f k = some c1) :
    Face.rotate c1 f ((4 - k) % 4) = some c := by
  obtain ⟨r0, r1, r2, r3, hr⟩ := rawPieces_shape c f
  have hrlen : [r0.length, r1.length, r2.length, r3.length] = slot_lens h w l f := by
    have hx := rawPieces_map_length c f
    rw [hr] at hx
    simpa using hx
  have hp : Face.pieces c f = invert_pieces (direc_list f) [r0, r1, r2, r3] := by
    rw [Face.pieces, hr]
  obtain ⟨q0, q1, q2, q3, hq⟩ :
      ∃ a0 a1 a2 a3, invert_pieces (direc_list f) [r0, r1, r2, r3] = [a0, a1, a2, a3] :=
    ⟨_, _, _, _, invert_pieces_four _ _ _ _ _⟩
  have hqr : invert_pieces (direc_list f) [q0, q1, q2, q3] = [r0, r1, r2, r3] := by
    rw [← hq, invert_pieces_invert_pieces]
  have hqlen : [q0.length, q1.length, q2.length, q3.length] =
      [r0.length, r1.length, r2.length, r3.length] := by
    have hx := congrArg (List.map List.length) hq
    rw [map_length_invert_pieces] at hx
    simpa using hx.symm
  have hG2 : [r0, r1, r2, r3].map List.length = slot_lens h w l f := by
    simpa using hrlen
  rcases hk with rfl | rfl | rfl
  · -- k = 1
    rw [Face.rotate_def] at hs
    rw [Face.rotate_def]
    simp only [Nat.reduceMod, Nat.reduceSub] at hs ⊢
    rw [hp, hq] at hs
    split at hs
    case isFalse => exact absurd hs (by simp)
    case isTrue hg =>
      obtain rfl := (Option.some.inj hs).symm
      have hg1 : [q3.length, q0.length, q1.length, q2.length] = slot_lens h w l f := by
        rw [← map_length_ws_one (direc_list f) q0 q1 q2 q3]
        exact hg
      have hsq : faceSq h w l f := by
        apply faceSq_shift_one f r0.length r1.length r2.length r3.length hrlen
        rw [← hg1]
        simp at hqlen ⊢
        omega
      have hraw1 : rawPieces (central_rot
            (writeStrips c f (invert_pieces (direc_list f)
              (rotate_pieces [q0, q1, q2, q3] 1))) 3 f) f =
          invert_pieces (direc_list f) (rotate_pieces [q0, q1, q2, q3] 1) := by
        rw [rawPieces_central_rot]
        exact rawPieces_writeStrips c f _ hg
      have hws2 : invert_pieces (direc_list f) (rotate_pieces
            (invert_pieces (direc_list f)
              (invert_pieces (direc_list f) (rotate_pieces [q0, q1, q2, q3] 1))) 3) =
          [r0, r1, r2, r3] := by
        have hx := second_strips_q (direc_list f) q0 q1 q2 q3 1 (by left; rfl)
        simp only [Nat.reduceSub] at hx
        exact hx.trans hqr
      simp only [Face.pieces_set, Face.pieces]
      rw [hraw1, hws2]
      rw [if_pos hG2]
      refine congrArg some ?_
      rw [writeStrips_central_rot, writeStrips_writeStrips, ← hr, writeStrips_rawPieces]
      exact central_cancel_one c f hsq
  · -- k = 2
    rw [Face.rotate_def] at hs
    rw [Face.rotate_def]
    simp only [Nat.reduceMod, Nat.reduceSub] at hs ⊢
    rw [hp, hq] at hs
    split at hs
    case isFalse => exact absurd hs (by simp)
    case isTrue hg =>
      obtain rfl := (Option.some.inj hs).symm
      have hraw1 : rawPieces (central_rot
            (writeStrips c f (invert_pieces (direc_list f)
              (rotate_pieces [q0, q1, q2, q3] 2))) 2 f) f =
          invert_pieces (direc_list f) (rotate_pieces [q0, q1, q2, q3] 2) := by
        rw [rawPieces_central_rot]
        exact rawPieces_writeStrips c f _ hg
      have hws2 : invert_pieces (direc_list f) (rotate_pieces
            (invert_pieces (direc_list f)
              (invert_pieces (direc_list f) (rotate_pieces [q0, q1, q2, q3] 2))) 2) =
          [r0, r1, r2, r3] := by
        have hx := second_strips_q (direc_list f) q0 q1 q2 q3 2 (by right; left; rfl)
        simp only [Nat.reduceSub] at hx
        exact hx.trans hqr
      simp only [Face.pieces_set, Face.pieces]
      rw [hraw1, hws2]
      rw [if_pos hG2]
      refine congrArg some ?_
      rw [writeStrips_central_rot, writeStrips_writeStrips, ← hr, writeStrips_rawPieces]
      exact central_cancel_two c f
  · -- k = 3
    rw [Face.rotate_def] at hs
    rw [Face.rotate_def]
    simp only [Nat.reduceMod, Nat.reduceSub] at hs ⊢
    rw [hp, hq] at hs
    split at hs
    case isFalse => exact absurd hs (by simp)
    case isTrue hg =>
      obtain rfl := (Option.some.inj hs).symm
      have hg1 : [q1.length, q2.length, q3.length, q0.length] = slot_lens h w l f := by
        rw [← map_length_ws_three (direc_list f) q0 q1 q2 q3]
        exact hg
      have hsq : faceSq h w l f := by
        apply faceSq_shift_three f r0.length r1.length r2.length r3.length hrlen
        rw [← hg1]
        simp at hqlen ⊢
        omega
      have hraw1 : rawPieces (central_rot
            (writeStrips c f (invert_pieces (direc_list f)
              (rotate_pieces [q0, q1, q2, q3] 3))) 1 f) f =
          invert_pieces (direc_list f) (rotate_pieces [q0, q1, q2, q3] 3) := by
        rw [rawPieces_central_rot]
        exact rawPieces_writeStrips c f _ hg
      have hws2 : invert_pieces (direc_list f) (rotate_pieces
            (invert_pieces (direc_list f)
              (invert_pieces (direc_list f) (rotate_pieces [q0, q1, q2, q3] 3))) 1) =
          [r0, r1, r2, r3] := by
        have hx := second_strips_q (direc_list f) q0 q1 q2 q3 3 (by right; right; rfl)
        simp only [Nat.reduceSub] at hx
        exact hx.trans hqr
      simp only [Face.pieces_set, Face.pieces]
      rw [hraw1, hws2]
      rw [if_pos hG2]
      refine congrArg some ?_
      rw [writeStrips_central_rot, writeStrips_writeStrips, ← hr, writeStrips_rawPieces]
      exact central_cancel_three c f hsq

theorem quarter_turn_identity_witness :
    (1 = 1 ∨ 1 = 2 ∨ 1 = 3) ∧
      Face.rotate ((Face.rotate (RubikCube.from_dims_state 1 1 1) .front 1).getD
          (RubikCube.from_dims_state 1 1 1)) .front ((4 - 1) % 4) =
        some (RubikCube.from_dims_state 1 1 1) :=
  ⟨Or.inl rfl,
    quarter_turn_identity (RubikCube.from_dims_state 1 1 1) .front 1 (Or.inl rfl) _
      (by decide)⟩

/-! ## Color conservation -/

theorem multiset_ofFn {α : Type} : ∀ {n : Nat} (f : Fin n → α),
    ((List.ofFn f : List α) : Multiset α) = ∑ j : Fin n, ({f j} : Multiset α)
  | 0, f => by simp
  | n + 1, f => by
    rw [List.ofFn_succ, Fin.sum_univ_succ, ← multiset_ofFn (fun i => f i.succ),
      Multiset.singleton_add, Multiset.cons_coe]

theorem multiset_getD {α : Type} [Inhabited α] {n : Nat} (s : List α) (hs : s.length = n) :
    (s : Multiset α) = ∑ j : Fin n, ({s.getD j.val default} : Multiset α) := by
  conv_lhs => rw [← ofFn_getD s hs]
  rw [multiset_ofFn]

theorem gridColors_set_row {a b : Nat} (g : Grid a b) (s : List Color) (i0 : Fin a)
    (hs : s.length = b) :
    gridColors (fun i j => if i.val = i0.val then s.getD j.val default else g i j) +
      (∑ j : Fin b, ({g i0 j} : Multiset Color)) =
    gridColors g + (s : Multiset Color) := by
  unfold gridColors
  have h1 : (∑ i : Fin a, ∑ j : Fin b,
        ({if i.val = i0.val then s.getD j.val default else g i j} : Multiset Color)) =
      (∑ j : Fin b, ({s.getD j.val default} : Multiset Color)) +
        ∑ i ∈ Finset.univ.erase i0, ∑ j : Fin b, ({g i j} : Multiset Color) := by
    rw [← Finset.add_sum_erase Finset.univ _ (Finset.mem_univ i0)]
    congr 1
    · exact Finset.sum_congr rfl fun j _ => by rw [if_pos rfl]
    · refine Finset.sum_congr rfl fun i hi => Finset.sum_congr rfl fun j _ => ?_
      rw [if_neg fun hv => (Finset.mem_erase.mp hi).1 (Fin.val_injective hv)]
  have h2 : (∑ i : Fin a, ∑ j : Fin b, ({g i j} : Multiset Color)) =
      (∑ j : Fin b, ({g i0 j} : Multiset Color)) +
        ∑ i ∈ Finset.univ.erase i0, ∑ j : Fin b, ({g i j} : Multiset Color) :=
    (Finset.add_sum_erase Finset.univ _ (Finset.mem_univ i0)).symm
  rw [h1, h2, multiset_getD s (hs.trans rfl)]
  abel

theorem gridColors_set_col {a b : Nat} (g : Grid a b) (s : List Color) (j0 : Fin b)
    (hs : s.length = a) :
    gridColors (fun i j => if j.val = j0.val then s.getD i.val default else g i j) +
      (∑ i : Fin a, ({g i j0} : Multiset Color)) =
    gridColors g + (s : Multiset Color) := by
  unfold gridColors
  have h1 : (∑ i : Fin a, ∑ j : Fin b,
        ({if j.val = j0.val then s.getD i.val default else g i j} : Multiset Color)) =
      (∑ i : Fin a, ({s.getD i.val default} : Multiset Color)) +
        ∑ i : Fin a, ∑ j ∈ Finset.univ.erase j0, ({g i j} : Multiset Color) := by
    rw [← Finset.sum_add_distrib]
    refine Finset.sum_congr rfl fun i _ => ?_
    rw [← Finset.add_sum_erase Finset.univ _ (Finset.mem_univ j0)]
    congr 1
    · rw [if_pos rfl]
    · refine Finset.sum_congr rfl fun j hj => ?_
      rw [if_neg fun hv => (Finset.mem_erase.mp hj).1 (Fin.val_injective hv)]
  have h2 : (∑ i : Fin a, ∑ j : Fin b, ({g i j} : Multiset Color)) =
      (∑ i : Fin a, ({g i j0} : Multiset Color)) +
        ∑ i : Fin a, ∑ j ∈ Finset.univ.erase j0, ({g i j} : Multiset Color) := by
    rw [← Finset.sum_add_distrib]
    refine Finset.sum_congr rfl fun i _ => ?_
    exact (Finset.add_sum_erase Finset.univ _ (Finset.mem_univ j0)).symm
  rw [h1, h2, multiset_getD s (hs.trans rfl)]
  abel

theorem gridColors_sliceSet_U {a b : Nat} [NeZero a] [NeZero b] (g : Grid a b)
    (s : List Color) (hs : s.length = b) :
    gridColors (sliceSet .U g s) + ((sliceGet .U g : List Color) : Multiset Color) =
      gridColors g + (s : Multiset Color) := by
  have h1 : ((sliceGet .U g : List Color) : Multiset Color) =
      ∑ j : Fin b, ({g ⟨0, Nat.pos_of_ne_zero (NeZero.ne a)⟩ j} : Multiset Color) :=
    multiset_ofFn _
  have h0 : sliceSet .U g s = fun i j =>
      if i.val = (⟨0, Nat.pos_of_ne_zero (NeZero.ne a)⟩ : Fin a).val then
        s.getD j.val default else g i j := rfl
  rw [h0, h1]
  exact gridColors_set_row g s _ hs

theorem gridColors_sliceSet_D {a b : Nat} [NeZero a] [NeZero b] (g : Grid a b)
    (s : List Color) (hs : s.length = b) :
    gridColors (sliceSet .D g s) + ((sliceGet .D g : List Color) : Multiset Color) =
      gridColors g + (s : Multiset Color) := by
  have h1 : ((sliceGet .D g : List Color) : Multiset Color) =
      ∑ j : Fin b, ({g ⟨a - 1,
        Nat.sub_lt (Nat.pos_of_ne_zero (NeZero.ne a)) one_pos⟩ j} : Multiset Color) :=
    multiset_ofFn _
  have h0 : sliceSet .D g s = fun i j =>
      if i.val = (⟨a - 1, Nat.sub_lt (Nat.pos_of_ne_zero (NeZero.ne a)) one_pos⟩ : Fin a).val then
        s.getD j.val default else g i j := rfl
  rw [h0, h1]
  exact gridColors_set_row g s _ hs

theorem gridColors_sliceSet_L {a b : Nat} [NeZero a] [NeZero b] (g : Grid a b)
    (s : List Color) (hs : s.length = a) :
    gridColors (sliceSet .L g s) + ((sliceGet .L g : List Color) : Multiset Color) =
      gridColors g + (s : Multiset Color) := by
  have h1 : ((sliceGet .L g : List Color) : Multiset Color) =
      ∑ i : Fin a, ({g i ⟨0, Nat.pos_of_ne_zero (NeZero.ne b)⟩} : Multiset Color) :=
    multiset_ofFn _
  have h0 : sliceSet .L g s = fun i j =>
      if j.val = (⟨0, Nat.pos_of_ne_zero (NeZero.ne b)⟩ : Fin b).val then
        s.getD i.val default else g i j := rfl
  rw [h0, h1]
  exact gridColors_set_col g s _ hs

theorem gridColors_sliceSet_R {a b : Nat} [NeZero a] [NeZero b] (g : Grid a b)
    (s : List Color) (hs : s.length = a) :
    gridColors (sliceSet .R g s) + ((sliceGet .R g : List Color) : Multiset Color) =
      gridColors g + (s : Multiset Color) := by
  have h1 : ((sliceGet .R g : List Color) : Multiset Color) =
      ∑ i : Fin a, ({g i ⟨b - 1,
        Nat.sub_lt (Nat.pos_of_ne_zero (NeZero.ne b)) one_pos⟩} : Multiset Color) :=
    multiset_ofFn _
  have h0 : sliceSet .R g s = fun i j =>
      if j.val = (⟨b - 1, Nat.sub_lt (Nat.pos_of_ne_zero (NeZero.ne b)) one_pos⟩ : Fin b).val then
        s.getD i.val default else g i j := rfl
  rw [h0, h1]
  exact gridColors_set_col g s _ hs

theorem gridColors_rot_ccw {a : Nat} (g : Grid a a) :
    gridColors (fun i j => g j (Fin.rev i)) = gridColors g := by
  unfold gridColors
  rw [Finset.sum_comm]
  exact Finset.sum_congr rfl fun j _ => Fintype.sum_equiv Fin.revPerm _ _ fun x => rfl

theorem gridColors_rot_cw {a : Nat} (g : Grid a a) :
    gridColors (fun i j => g (Fin.rev j) i) = gridColors g := by
  unfold gridColors
  rw [Finset.sum_comm]
  exact Fintype.sum_equiv Fin.revPerm _ _ fun x => rfl

theorem gridColors_rot180 {a b : Nat} (g : Grid a b) :
    gridColors (fun i j => g (Fin.rev i) (Fin.rev j)) = gridColors g := by
  unfold gridColors
  refine Fintype.sum_equiv Fin.revPerm _ _ fun x => ?_
  exact Fintype.sum_equiv Fin.revPerm _ _ fun y => rfl

theorem gridColors_npRot90Pow {a b : Nat} (k : Nat) (g : Grid a b) :
    gridColors (npRot90Pow k g) = gridColors g := by
  unfold npRot90Pow
  split
  · split
    · rename_i hab
      subst hab
      show gridColors (fun i j => g j (Fin.rev i)) = gridColors g
      exact gridColors_rot_ccw g
    · rfl
  · exact gridColors_rot180 g
  · split
    · rename_i hab
      subst hab
      show gridColors (fun i j => g (Fin.rev j) i) = gridColors g
      exact gridColors_rot_cw g
    · rfl
  · rfl

theorem rotate_pieces_zero (p0 p1 p2 p3 : List Color) :
    rotate_pieces [p0, p1, p2, p3] 0 = [p0, p1, p2, p3] := rfl

theorem sum4_invert (dl : List Direc) (p0 p1 p2 p3 : List Color) :
    ((invert_pieces dl [p0, p1, p2, p3]).map
        (fun s : List Color => (s : Multiset Color))).sum =
      (([p0, p1, p2, p3] : List (List Color)).map
        (fun s : List Color => (s : Multiset Color))).sum := by
  rw [invert_pieces_four]
  split_ifs <;> simp [Multiset.coe_reverse]

theorem sum4_pipeline (dl : List Direc) (q0 q1 q2 q3 : List Color) (t4 : Nat)
    (ht : t4 = 0 ∨ t4 = 1 ∨ t4 = 2 ∨ t4 = 3) :
    ((invert_pieces dl (rotate_pieces [q0, q1, q2, q3] t4)).map
        (fun s : List Color => (s : Multiset Color))).sum =
      (([q0, q1, q2, q3] : List (List Color)).map
        (fun s : List Color => (s : Multiset Color))).sum := by
  rcases ht with rfl | rfl | rfl | rfl
  · rw [rotate_pieces_zero, sum4_invert]
  · rw [rotate_pieces_one, sum4_invert]
    simp only [List.map_cons, List.map_nil, List.sum_cons, List.sum_nil,
      Multiset.coe_reverse, add_zero]
    abel
  · rw [rotate_pieces_two, sum4_invert]
    simp only [List.map_cons, List.map_nil, List.sum_cons, List.sum_nil,
      Multiset.coe_reverse, add_zero]
    abel
  · rw [rotate_pieces_three, sum4_invert]
    simp only [List.map_cons, List.map_nil, List.sum_cons, List.sum_nil,
      Multiset.coe_reverse, add_zero]
    abel

theorem cubeColors_central_rot {h w l : Nat} (c : CubeState h w l) (k : Nat) (f : FaceName) :
    cubeColors (central_rot c k f) = cubeColors c := by
  cases f <;> simp [central_rot, cubeColors, gridColors_npRot90Pow]

set_option maxHeartbeats 1000000 in
theorem cubeColors_writeStrips {h w l : Nat} [NeZero h] [NeZero w] [NeZero l]
    (c : CubeState h w l) (f : FaceName) (ws : List (List Color))
    (hw : ws.map List.length = slot_lens h w l f) :
    cubeColors (writeStrips c f ws) +
        ((rawPieces c f).map (fun s : List Color => (s : Multiset Color))).sum =
      cubeColors c + (ws.map (fun s : List Color => (s : Multiset Color))).sum := by
  have hlen : ws.length = 4 := by
    have h4 := congrArg List.length hw
    simpa [slot_lens_length] using h4
  obtain ⟨w0, w1, w2, w3, rfl⟩ := list_eq_four_of_length hlen
  cases f
  case front =>
    simp only [slot_lens, List.map_cons, List.map_nil, List.cons.injEq, and_true] at hw
    obtain ⟨e0, e1, e2, e3⟩ := hw
    have q0 := gridColors_sliceSet_D c.up w0 e0
    have q1 := gridColors_sliceSet_L c.right w1 e1
    have q2 := gridColors_sliceSet_U c.down w2 e2
    have q3 := gridColors_sliceSet_R c.left w3 e3
    have hsum : (gridColors (sliceSet .D c.up w0) + ((sliceGet .D c.up : List Color) : Multiset Color)) +
        ((gridColors (sliceSet .L c.right w1) + ((sliceGet .L c.right : List Color) : Multiset Color)) +
        ((gridColors (sliceSet .U c.down w2) + ((sliceGet .U c.down : List Color) : Multiset Color)) +
        (gridColors (sliceSet .R c.left w3) + ((sliceGet .R c.left : List Color) : Multiset Color)))) =
      (gridColors c.up + (w0 : Multiset Color)) +
        ((gridColors c.right + (w1 : Multiset Color)) +
        ((gridColors c.down + (w2 : Multiset Color)) +
        (gridColors c.left + (w3 : Multiset Color)))) := by
      rw [q0, q1, q2, q3]
    have h2 := congrArg
      (fun X => X + (gridColors c.front + gridColors c.back)) hsum
    simp only [cubeColors, writeStrips, rawPieces, List.getD_cons_zero,
      List.getD_cons_succ, List.map_cons, List.map_nil, List.sum_cons, List.sum_nil] at h2 ⊢
    abel_nf at h2 ⊢
    exact h2
  case back =>
    simp only [slot_lens, List.map_cons, List.map_nil, List.cons.injEq, and_true] at hw
    obtain ⟨e0, e1, e2, e3⟩ := hw
    have q0 := gridColors_sliceSet_U c.up w0 e0
    have q1 := gridColors_sliceSet_L c.left w1 e1
    have q2 := gridColors_sliceSet_D c.down w2 e2
    have q3 := gridColors_sliceSet_R c.right w3 e3
    have hsum : (gridColors (sliceSet .U c.up w0) + ((sliceGet .U c.up : List Color) : Multiset Color)) +
        ((gridColors (sliceSet .L c.left w1) + ((sliceGet .L c.left : List Color) : Multiset Color)) +
        ((gridColors (sliceSet .D c.down w2) + ((sliceGet .D c.down : List Color) : Multiset Color)) +
        (gridColors (sliceSet .R c.right w3) + ((sliceGet .R c.right : List Color) : Multiset Color)))) =
      (gridColors c.up + (w0 : Multiset Color)) +
        ((gridColors c.left + (w1 : Multiset Color)) +
        ((gridColors c.down + (w2 : Multiset Color)) +
        (gridColors c.right + (w3 : Multiset Color)))) := by
      rw [q0, q1, q2, q3]
    have h2 := congrArg
      (fun X => X + (gridColors c.front + gridColors c.back)) hsum
    simp only [cubeColors, writeStrips, rawPieces, List.getD_cons_zero,
      List.getD_cons_succ, List.map_cons, List.map_nil, List.sum_cons, List.sum_nil] at h2 ⊢
    abel_nf at h2 ⊢
    exact h2
  case left =>
    simp only [slot_lens, List.map_cons, List.map_nil, List.cons.injEq, and_true] at hw
    obtain ⟨e0, e1, e2, e3⟩ := hw
    have q0 := gridColors_sliceSet_L c.up w0 e0
    have q1 := gridColors_sliceSet_L c.front w1 e1
    have q2 := gridColors_sliceSet_L c.down w2 e2
    have q3 := gridColors_sliceSet_R c.back w3 e3
    have hsum : (gridColors (sliceSet .L c.up w0) + ((sliceGet .L c.up : List Color) : Multiset Color)) +
        ((gridColors (sliceSet .L c.front w1) + ((sliceGet .L c.front : List Color) : Multiset Color)) +
        ((gridColors (sliceSet .L c.down w2) + ((sliceGet .L c.down : List Color) : Multiset Color)) +
        (gridColors (sliceSet .R c.back w3) + ((sliceGet .R c.back : List Color) : Multiset Color)))) =
      (gridColors c.up + (w0 : Multiset Color)) +
        ((gridColors c.front + (w1 : Multiset Color)) +
        ((gridColors c.down + (w2 : Multiset Color)) +
        (gridColors c.back + (w3 : Multiset Color)))) := by
      rw [q0, q1, q2, q3]
    have h2 := congrArg
      (fun X => X + (gridColors c.left + gridColors c.right)) hsum
    simp only [cubeColors, writeStrips, rawPieces, List.getD_cons_zero,
      List.getD_cons_succ, List.map_cons, List.map_nil, List.sum_cons, List.sum_nil] at h2 ⊢
    abel_nf at h2 ⊢
    exact h2
  case right =>
    simp only [slot_lens, List.map_cons, List.map_nil, List.cons.injEq, and_true] at hw
    obtain ⟨e0, e1, e2, e3⟩ := hw
    have q0 := gridColors_sliceSet_R c.up w0 e0
    have q1 := gridColors_sliceSet_L c.back w1 e1
    have q2 := gridColors_sliceSet_R c.down w2 e2
    have q3 := gridColors_sliceSet_R c.front w3 e3
    have hsum : (gridColors (sliceSet .R c.up w0) + ((sliceGet .R c.up : List Color) : Multiset Color)) +
        ((gridColors (sliceSet .L c.back w1) + ((sliceGet .L c.back : List Color) : Multiset Color)) +
        ((gridColors (sliceSet .R c.down w2) + ((sliceGet .R c.down : List Color) : Multiset Color)) +
        (gridColors (sliceSet .R c.front w3) + ((sliceGet .R c.front : List Color) : Multiset Color)))) =
      (gridColors c.up + (w0 : Multiset Color)) +
        ((gridColors c.back + (w1 : Multiset Color)) +
        ((gridColors c.down + (w2 : Multiset Color)) +
        (gridColors c.front + (w3 : Multiset Color)))) := by
      rw [q0, q1, q2, q3]
    have h2 := congrArg
      (fun X => X + (gridColors c.left + gridColors c.right)) hsum
    simp only [cubeColors, writeStrips, rawPieces, List.getD_cons_zero,
      List.getD_cons_succ, List.map_cons, List.map_nil, List.sum_cons, List.sum_nil] at h2 ⊢
    abel_nf at h2 ⊢
    exact h2
  case up =>
    simp only [slot_lens, List.map_cons, List.map_nil, List.cons.injEq, and_true] at hw
    obtain ⟨e0, e1, e2, e3⟩ := hw
    have q0 := gridColors_sliceSet_U c.back w0 e0
    have q1 := gridColors_sliceSet_U c.right w1 e1
    have q2 := gridColors_sliceSet_U c.front w2 e2
    have q3 := gridColors_sliceSet_U c.left w3 e3
    have hsum : (gridColors (sliceSet .U c.back w0) + ((sliceGet .U c.back : List Color) : Multiset Color)) +
        ((gridColors (sliceSet .U c.right w1) + ((sliceGet .U c.right : List Color) : Multiset Color)) +
        ((gridColors (sliceSet .U c.front w2) + ((sliceGet .U c.front : List Color) : Multiset Color)) +
        (gridColors (sliceSet .U c.left w3) + ((sliceGet .U c.left : List Color) : Multiset Color)))) =
      (gridColors c.back + (w0 : Multiset Color)) +
        ((gridColors c.right + (w1 : Multiset Color)) +
        ((gridColors c.front + (w2 : Multiset Color)) +
        (gridColors c.left + (w3 : Multiset Color)))) := by
      rw [q0, q1, q2, q3]
    have h2 := congrArg
      (fun X => X + (gridColors c.up + gridColors c.down)) hsum
    simp only [cubeColors, writeStrips, rawPieces, List.getD_cons_zero,
      List.getD_cons_succ, List.map_cons, List.map_nil, List.sum_cons, List.sum_nil] at h2 ⊢
    abel_nf at h2 ⊢
    exact h2
  case down =>
    simp only [slot_lens, List.map_cons, List.map_nil, List.cons.injEq, and_true] at hw
    obtain ⟨e0, e1, e2, e3⟩ := hw
    have q0 := gridColors_sliceSet_D c.front w0 e0
    have q1 := gridColors_sliceSet_D c.right w1 e1
    have q2 := gridColors_sliceSet_D c.back w2 e2
    have q3 := gridColors_sliceSet_D c.left w3 e3
    have hsum : (gridColors (sliceSet .D c.front w0) + ((sliceGet .D c.front : List Color) : Multiset Color)) +
        ((gridColors (sliceSet .D c.right w1) + ((sliceGet .D c.right : List Color) : Multiset Color)) +
        ((gridColors (sliceSet .D c.back w2) + ((sliceGet .D c.back : List Color) : Multiset Color)) +
        (gridColors (sliceSet .D c.left w3) + ((sliceGet .D c.left : List Color) : Multiset Color)))) =
      (gridColors c.front + (w0 : Multiset Color)) +
        ((gridColors c.right + (w1 : Multiset Color)) +
        ((gridColors c.back + (w2 : Multiset Color)) +
        (gridColors c.left + (w3 : Multiset Color)))) := by
      rw [q0, q1, q2, q3]
    have h2 := congrArg
      (fun X => X + (gridColors c.up + gridColors c.down)) hsum
    simp only [cubeColors, writeStrips, rawPieces, List.getD_cons_zero,
      List.getD_cons_succ, List.map_cons, List.map_nil, List.sum_cons, List.sum_nil] at h2 ⊢
    abel_nf at h2 ⊢
    exact h2

set_option maxHeartbeats 1000000 in
theorem cubeColors_rotate {h w l : Nat} [NeZero h] [NeZero w] [NeZero l]
    (c : CubeState h w l) (f : FaceName) (t : Nat) (c1 : CubeState h w l)
    (hs : Face.rotate c f t = some c1) : cubeColors c1 = cubeColors c := by
  rw [Face.rotate_def] at hs
  split at hs
  case isFalse => exact absurd hs (by simp)
  case isTrue hg =>
    obtain rfl := (Option.some.inj hs).symm
    rw [cubeColors_central_rot]
    simp only [Face.pieces_set]
    have key := cubeColors_writeStrips c f _ hg
    have hsum : ((invert_pieces (direc_list f)
          (rotate_pieces (Face.pieces c f) (t % 4))).map
            (fun s : List Color => (s : Multiset Color))).sum =
        ((rawPieces c f).map (fun s : List Color => (s : Multiset Color))).sum := by
      obtain ⟨r0, r1, r2, r3, hr⟩ := rawPieces_shape c f
      obtain ⟨q0, q1, q2, q3, hq⟩ :
          ∃ a0 a1 a2 a3, invert_pieces (direc_list f) [r0, r1, r2, r3] = [a0, a1, a2, a3] :=
        ⟨_, _, _, _, invert_pieces_four _ _ _ _ _⟩
      rw [Face.pieces, hr, hq]
      rw [sum4_pipeline (direc_list f) q0 q1 q2 q3 (t % 4) (by omega)]
      rw [← hq, sum4_invert]
    rw [hsum] at key
    exact add_right_cancel key

/-- C2: a successfully applied move never creates or destroys a color — the
multiset of colors over all six grids is preserved. -/
theorem color_conservation {h w l : Nat} [NeZero h] [NeZero w] [NeZero l]
    (rc : RubikCube h w l) (m : CubeMove) (rc1 : RubikCube h w l)
    (hs : RubikCube.make_a_move rc m = .ok rc1) :
    cubeColors rc1.state = cubeColors rc.state := by
  unfold RubikCube.make_a_move at hs
  split at hs
  case isTrue hperm =>
    split at hs
    case h_1 s hmove =>
      injection hs with hx
      rw [← hx]
      exact cubeColors_rotate _ _ _ _ hmove
    case h_2 => exact absurd hs (by simp)
  case isFalse => exact absurd hs (by simp)

theorem color_conservation_witness :
    cubeColors (RubikCube.mk
        ((CubeMove.U2.move_the_cube (RubikCube.from_dims_state 1 1 1)).getD
          (RubikCube.from_dims_state 1 1 1)) Finset.univ).state =
      cubeColors (RubikCube.mk (RubikCube.from_dims_state 1 1 1) Finset.univ).state :=
  color_conservation _ CubeMove.U2 _ (by decide)

set_option maxRecDepth 1000000 in
/-- C3 counterexample: on dimensions (1,1,1) with permitted moves {U2, D2},
exploration does **not** produce 1 node and 0 edges — a 180° turn of a 1×1
face swaps the four border facelets (front↔back, left↔right), so the solved
state is not fixed. -/
theorem explore_111_counterexample :
    ¬ runCounts (make_graph 1 1 1 [CubeMove.U2, CubeMove.D2]) = some (.ok (1, 0)) := by
  decide

set_option maxRecDepth 1000000 in
/-- C3 amended: on dimensions (1,1,1) with permitted moves {U2, D2},
exploration terminates and produces exactly 2 nodes and 1 edge (U2 and D2
induce the same swap of front/back and left/right, so the two states form a
single undirected edge). -/
theorem explore_111_U2D2 :
    runCounts (make_graph 1 1 1 [CubeMove.U2, CubeMove.D2]) = some (.ok (2, 1)) := by
  decide

set_option maxRecDepth 1000000 in
/-- C4 counterexample: on dimensions (1,1,1) with the single permitted move F,
the explorer produces 4 nodes and 4 undirected edges, but
`node_count × |permitted_moves| / 2 = 4 * 1 / 2 = 2 < 4`. -/
theorem edge_bound_counterexample :
    runCounts (make_graph 1 1 1 [CubeMove.F]) = some (.ok (4, 4)) ∧ ¬ (4 ≤ 4 * 1 / 2) := by
  decide

/-- C7: structural equality of cubes (the `__eq__` face-by-face comparison)
implies equal hashes. -/
theorem hash_eq_consistency {h w l : Nat} (A B : CubeState h w l)
    (he : RubikCube.eq_faces A B = true) : cube_hash A = cube_hash B := by
  have hAB : A = B := by
    unfold RubikCube.eq_faces Face.beq at he
    simp only [Bool.and_eq_true, decide_eq_true_eq] at he
    obtain ⟨⟨⟨⟨⟨h1, h2⟩, h3⟩, h4⟩, h5⟩, h6⟩ := he
    cases A; cases B
    simp only [CubeState.mk.injEq]
    refine ⟨?_, ?_, ?_, ?_, ?_, ?_⟩ <;> funext i j
    · exact h1 i j
    · exact h2 i j
    · exact h3 i j
    · exact h4 i j
    · exact h5 i j
    · exact h6 i j
  rw [hAB]

theorem hash_eq_consistency_witness :
    cube_hash ((CubeMove.U2.move_the_cube ((CubeMove.U2.move_the_cube
        (RubikCube.from_dims_state 1 1 1)).getD (RubikCube.from_dims_state 1 1 1))).getD
          (RubikCube.from_dims_state 1 1 1)) =
      cube_hash (RubikCube.from_dims_state 1 1 1) :=
  hash_eq_consistency _ _ (by decide)

set_option maxRecDepth 100000 in
/-- C10 counterexample: with `permitted_movements = None` the permitted set is
the full move set, but `make_movements` does **not** succeed for every defined
move: on dimensions (2,1,1) the quarter turn F raises numpy's `ValueError`
(the front face is not square), although it is not rejected as
not-permitted. -/
theorem falsy_permitted_counterexample :
    RubikCube.make_a_move (RubikCube.mk' (RubikCube.from_dims_state 2 1 1) none)
      CubeMove.F = .error .valueErr := by
  decide

/-- C10 amended: `permitted_movements or {m for m in CubeMove}` makes both
`None` and the empty set fall back to the full move set; consequently no
defined move is ever rejected as not-permitted (though a move can still fail
with numpy's `ValueError` on a non-square face). -/
theorem falsy_permitted_full {h w l : Nat} [NeZero h] [NeZero w] [NeZero l]
    (s : CubeState h w l) (m : CubeMove) :
    (RubikCube.mk' s none).permitted_movements = Finset.univ ∧
      (RubikCube.mk' s (some ∅)).permitted_movements = Finset.univ ∧
      RubikCube.make_a_move (RubikCube.mk' s none) m ≠ .error .notPermitted ∧
      RubikCube.make_a_move (RubikCube.mk' s (some ∅)) m ≠ .error .notPermitted := by
  refine ⟨rfl, by simp [RubikCube.mk', initPermitted], ?_, ?_⟩ <;>
    · simp only [RubikCube.make_a_move, RubikCube.mk', initPermitted, if_pos rfl,
        Finset.mem_univ, if_true]
      split <;> simp

theorem falsy_permitted_full_witness :
    (RubikCube.mk' (RubikCube.from_dims_state 1 1 1) none).permitted_movements =
        Finset.univ ∧
      (RubikCube.mk' (RubikCube.from_dims_state 1 1 1) (some ∅)).permitted_movements =
        Finset.univ ∧
      RubikCube.make_a_move (RubikCube.mk' (RubikCube.from_dims_state 1 1 1) none)
          CubeMove.F ≠ .error .notPermitted ∧
      RubikCube.make_a_move (RubikCube.mk' (RubikCube.from_dims_state 1 1 1) (some ∅))
          CubeMove.F ≠ .error .notPermitted :=
  falsy_permitted_full (RubikCube.from_dims_state 1 1 1) CubeMove.F

/-- C5: a movement outside the permitted set is rejected with
`NotPermittedMovementError` before anything is copied or any grid touched:
the store is returned exactly as it was. -/
theorem not_permitted_rejected {h w l : Nat} [NeZero h] [NeZero w] [NeZero l]
    (s : FaceStore h w l) (c : CubeRef) (m : CubeMove) (hm : m ∉ c.perm) :
    make_a_move_obj s c m = (s, .error .notPermitted) ∧
      RubikCube.make_a_move ⟨readCube s c, c.perm⟩ m = .error .notPermitted := by
  constructor
  · unfold make_a_move_obj
    rw [if_neg hm]
  · unfold RubikCube.make_a_move
    rw [if_neg hm]

theorem not_permitted_rejected_witness :
    make_a_move_obj
        (⟨fun _ => (RubikCube.from_dims_state 1 1 1).front,
          fun _ => (RubikCube.from_dims_state 1 1 1).left,
          fun _ => (RubikCube.from_dims_state 1 1 1).up, 2, 2, 2⟩ : FaceStore 1 1 1)
        ⟨0, 1, 0, 1, 0, 1, {CubeMove.U2}⟩ CubeMove.F =
      (⟨fun _ => (RubikCube.from_dims_state 1 1 1).front,
        fun _ => (RubikCube.from_dims_state 1 1 1).left,
        fun _ => (RubikCube.from_dims_state 1 1 1).up, 2, 2, 2⟩,
       .error .notPermitted) ∧
      RubikCube.make_a_move
        ⟨readCube (⟨fun _ => (RubikCube.from_dims_state 1 1 1).front,
            fun _ => (RubikCube.from_dims_state 1 1 1).left,
            fun _ => (RubikCube.from_dims_state 1 1 1).up, 2, 2, 2⟩ : FaceStore 1 1 1)
          ⟨0, 1, 0, 1, 0, 1, {CubeMove.U2}⟩, {CubeMove.U2}⟩ CubeMove.F =
        .error .notPermitted :=
  not_permitted_rejected _ _ CubeMove.F (by decide)

theorem readCube_deepcopy {h w l : Nat} (s : FaceStore h w l) (c : CubeRef) :
    readCube (deepcopyCube s c).1 (deepcopyCube s c).2 = readCube s c := by
  unfold readCube deepcopyCube
  simp only [CubeState.mk.injEq]
  refine ⟨?_, ?_, ?_, ?_, ?_, ?_⟩
  · rw [Function.update_noteq (by omega), Function.update_same]
  · rw [Function.update_noteq (by omega), Function.update_same]
  · rw [Function.update_noteq (by omega), Function.update_same]
  · rw [Function.update_same]
  · rw [Function.update_same]
  · rw [Function.update_same]

theorem readCube_deepcopy_untouched {h w l : Nat} (s : FaceStore h w l) (c c0 : CubeRef)
    (hv : validRef s c0) :
    readCube (deepcopyCube s c).1 c0 = readCube s c0 := by
  obtain ⟨v1, v2, v3, v4, v5, v6⟩ := hv
  unfold readCube deepcopyCube
  simp only [CubeState.mk.injEq]
  refine ⟨?_, ?_, ?_, ?_, ?_, ?_⟩ <;>
    rw [Function.update_noteq (by omega), Function.update_noteq (by omega)]

theorem readCube_writeCube_untouched {h w l : Nat} (s : FaceStore h w l) (c c0 : CubeRef)
    (st : CubeState h w l)
    (hne : c0.fI ≠ c.fI ∧ c0.fI ≠ c.bI ∧ c0.bI ≠ c.fI ∧ c0.bI ≠ c.bI ∧
      c0.lI ≠ c.lI ∧ c0.lI ≠ c.rI ∧ c0.rI ≠ c.lI ∧ c0.rI ≠ c.rI ∧
      c0.uI ≠ c.uI ∧ c0.uI ≠ c.dI ∧ c0.dI ≠ c.uI ∧ c0.dI ≠ c.dI) :
    readCube (writeCube s c st) c0 = readCube s c0 := by
  obtain ⟨n1, n2, n3, n4, n5, n6, n7, n8, n9, n10, n11, n12⟩ := hne
  unfold readCube writeCube
  simp only [CubeState.mk.injEq]
  refine ⟨?_, ?_, ?_, ?_, ?_, ?_⟩ <;>
    rw [Function.update_noteq (by assumption), Function.update_noteq (by assumption)]

theorem readCube_writeCube {h w l : Nat} (s : FaceStore h w l) (c : CubeRef)
    (st : CubeState h w l)
    (hd : c.fI ≠ c.bI ∧ c.lI ≠ c.rI ∧ c.uI ≠ c.dI) :
    readCube (writeCube s c st) c = st := by
  obtain ⟨d1, d2, d3⟩ := hd
  unfold readCube writeCube
  simp only
  cases st
  simp only [CubeState.mk.injEq]
  refine ⟨?_, ?_, ?_, ?_, ?_, ?_⟩
  · rw [Function.update_noteq (by omega), Function.update_same]
  · rw [Function.update_noteq (by omega), Function.update_same]
  · rw [Function.update_noteq (by omega), Function.update_same]
  · rw [Function.update_same]
  · rw [Function.update_same]
  · rw [Function.update_same]

/-- C6: a permitted, successful move leaves the original cube object's six
grids untouched (the move is applied to a deep copy), and the returned cube
object holds exactly the rotated state of the original. -/
theorem move_preserves_original {h w l : Nat} [NeZero h] [NeZero w] [NeZero l]
    (s : FaceStore h w l) (c : CubeRef) (m : CubeMove) (hv : validRef s c)
    (s1 : FaceStore h w l) (c1 : CubeRef)
    (hs : make_a_move_obj s c m = (s1, .ok c1)) :
    readCube s1 c = readCube s c ∧
      Face.rotate (readCube s c) m.face m.turns = some (readCube s1 c1) := by
  unfold make_a_move_obj at hs
  split at hs
  case isFalse => simp at hs
  case isTrue hmem =>
    dsimp only at hs
    split at hs
    case h_2 => simp at hs
    case h_1 st hrot =>
      rw [Prod.mk.injEq] at hs
      obtain ⟨hs1, hc1⟩ := hs
      have hc1' : (deepcopyCube s c).2 = c1 := by
        injection hc1
      obtain ⟨v1, v2, v3, v4, v5, v6⟩ := hv
      constructor
      · rw [← hs1]
        rw [readCube_writeCube_untouched _ _ _ _ (by
          unfold deepcopyCube
          dsimp only
          omega)]
        exact readCube_deepcopy_untouched s c c ⟨v1, v2, v3, v4, v5, v6⟩
      · rw [readCube_deepcopy] at hrot
        rw [hrot, ← hs1, ← hc1']
        have hread := readCube_writeCube (deepcopyCube s c).1 (deepcopyCube s c).2 st (by
          unfold deepcopyCube
          dsimp only
          omega)
        rw [hread]

set_option maxRecDepth 100000 in
theorem move_preserves_original_witness :
    readCube (make_a_move_obj
        (⟨fun _ => (RubikCube.from_dims_state 1 1 1).front,
          fun _ => (RubikCube.from_dims_state 1 1 1).left,
          fun _ => (RubikCube.from_dims_state 1 1 1).up, 2, 2, 2⟩ : FaceStore 1 1 1)
        ⟨0, 1, 0, 1, 0, 1, Finset.univ⟩ CubeMove.U2).1
      ⟨0, 1, 0, 1, 0, 1, Finset.univ⟩ =
    readCube
        (⟨fun _ => (RubikCube.from_dims_state 1 1 1).front,
          fun _ => (RubikCube.from_dims_state 1 1 1).left,
          fun _ => (RubikCube.from_dims_state 1 1 1).up, 2, 2, 2⟩ : FaceStore 1 1 1)
        ⟨0, 1, 0, 1, 0, 1, Finset.univ⟩ ∧
    Face.rotate (readCube
        (⟨fun _ => (RubikCube.from_dims_state 1 1 1).front,
          fun _ => (RubikCube.from_dims_state 1 1 1).left,
          fun _ => (RubikCube.from_dims_state 1 1 1).up, 2, 2, 2⟩ : FaceStore 1 1 1)
        ⟨0, 1, 0, 1, 0, 1, Finset.univ⟩) CubeMove.U2.face CubeMove.U2.turns =
      some (readCube (make_a_move_obj
          (⟨fun _ => (RubikCube.from_dims_state 1 1 1).front,
            fun _ => (RubikCube.from_dims_state 1 1 1).left,
            fun _ => (RubikCube.from_dims_state 1 1 1).up, 2, 2, 2⟩ : FaceStore 1 1 1)
          ⟨0, 1, 0, 1, 0, 1, Finset.univ⟩ CubeMove.U2).1
        ((make_a_move_obj
          (⟨fun _ => (RubikCube.from_dims_state 1 1 1).front,
            fun _ => (RubikCube.from_dims_state 1 1 1).left,
            fun _ => (RubikCube.from_dims_state 1 1 1).up, 2, 2, 2⟩ : FaceStore 1 1 1)
          ⟨0, 1, 0, 1, 0, 1, Finset.univ⟩ CubeMove.U2).2.toOption.getD
            ⟨0, 1, 0, 1, 0, 1, Finset.univ⟩)) :=
  move_preserves_original _ _ CubeMove.U2 (by unfold validRef; decide) _ _ rfl

/-! ## Explorer invariants -/

theorem expandNode_spec {h w l : Nat} [NeZero h] [NeZero w] [NeZero l]
    (perm : Finset CubeMove) (cur : CubeState h w l) :
    ∀ (ms : List CubeMove) (g : ExploreGraph h w l) (stack : List (CubeState h w l))
      (g1 : ExploreGraph h w l) (stack1 : List (CubeState h w l)),
      expandNode perm cur ms g stack = .ok (g1, stack1) →
      ∃ news : List (CubeState h w l),
        stack1 = news ++ stack ∧
        g1.nodes = g.nodes ++ news.reverse ∧
        g1.trace = g.trace ∧
        news.Nodup ∧
        (∀ x ∈ news, x ∉ g.nodes) ∧
        g1.edges.length ≤ g.edges.length + ms.length
  | [], g, stack, g1, stack1 => by
    intro hx
    simp only [expandNode] at hx
    obtain ⟨rfl, rfl⟩ : g = g1 ∧ stack = stack1 := by
      have h1 := congrArg (fun p => p.1) (Except.ok.inj hx)
      have h2 := congrArg (fun p => p.2) (Except.ok.inj hx)
      exact ⟨h1, h2⟩
    exact ⟨[], by simp⟩
  | m :: ms, g, stack, g1, stack1 => by
    intro hx
    simp only [expandNode] at hx
    split at hx
    case h_1 => exact absurd hx (by simp)
    case h_2 other hstep =>
      by_cases hmem : other ∈ g.nodes
      · rw [if_pos hmem] at hx
        dsimp only at hx
        by_cases hadj : other ∈ neighborsOf g cur
        · rw [if_pos hadj] at hx
          obtain ⟨news, h1, h2, h3, h4, h5, h6⟩ := expandNode_spec perm cur ms _ _ _ _ hx
          refine ⟨news, h1, h2, h3, h4, h5, ?_⟩
          dsimp only at h6
          simp only [List.length_cons]
          omega
        · rw [if_neg hadj] at hx
          obtain ⟨news, h1, h2, h3, h4, h5, h6⟩ := expandNode_spec perm cur ms _ _ _ _ hx
          refine ⟨news, h1, h2, h3, h4, h5, ?_⟩
          simp only [List.length_append, List.length_cons, List.length_nil] at h6 ⊢
          omega
      · rw [if_neg hmem] at hx
        dsimp only at hx
        by_cases hadj : other ∈ neighborsOf { g with nodes := g.nodes ++ [other] } cur
        · rw [if_pos hadj] at hx
          obtain ⟨news, h1, h2, h3, h4, h5, h6⟩ := expandNode_spec perm cur ms _ _ _ _ hx
          refine ⟨news ++ [other], by simp [h1], ?_, h3, ?_, ?_, ?_⟩
          · rw [h2]
            simp
          · simp only [List.nodup_append]
            refine ⟨h4, by simp, ?_⟩
            intro x hxn
            simp only [List.mem_singleton]
            intro heq
            subst heq
            have hx5 := h5 x hxn
            simp at hx5
          · intro x hxn
            rcases List.mem_append.mp hxn with hx1 | hx2
            · intro hg
              exact h5 x hx1 (by simp [hg])
            · rw [List.mem_singleton.mp hx2]
              exact hmem
          · simp only [List.length_cons] at h6 ⊢
            omega
        · rw [if_neg hadj] at hx
          obtain ⟨news, h1, h2, h3, h4, h5, h6⟩ := expandNode_spec perm cur ms _ _ _ _ hx
          refine ⟨news ++ [other], by simp [h1], ?_, h3, ?_, ?_, ?_⟩
          · rw [h2]
            simp
          · simp only [List.nodup_append]
            refine ⟨h4, by simp, ?_⟩
            intro x hxn
            simp only [List.mem_singleton]
            intro heq
            subst heq
            have hx5 := h5 x hxn
            simp at hx5
          · intro x hxn
            rcases List.mem_append.mp hxn with hx1 | hx2
            · intro hg
              exact h5 x hx1 (by simp [hg])
            · rw [List.mem_singleton.mp hx2]
              exact hmem
          · simp only [List.length_append, List.length_cons, List.length_nil] at h6 ⊢
            omega

theorem nodup_shuffle {α : Type} [DecidableEq α] (T R N : List α) (c : α)
    (h1 : (T ++ c :: R).Nodup) (h2 : N.Nodup) (h3 : ∀ x ∈ N, x ∉ T ++ c :: R) :
    ((T ++ [c]) ++ (N ++ R)).Nodup := by
  have hp : List.Perm ((T ++ [c]) ++ (N ++ R)) (N ++ (T ++ c :: R)) := by
    refine List.perm_iff_count.mpr fun a => ?_
    simp [List.count_append, List.count_cons]
    omega
  exact (hp.nodup_iff).mpr (List.nodup_append.mpr ⟨h2, h1, h3⟩)

theorem card_CubeState (h w l : Nat) :
    Fintype.card (CubeState h w l) = 6 ^ (2 * (h * w + h * l + l * w)) := by
  have he : CubeState h w l ≃
      (Grid l w × Grid h l × Grid h w × Grid h l × Grid h w × Grid l w) :=
    { toFun := fun c => ⟨c.up, c.left, c.front, c.right, c.back, c.down⟩
      invFun := fun p => ⟨p.1, p.2.1, p.2.2.1, p.2.2.2.1, p.2.2.2.2.1, p.2.2.2.2.2⟩
      left_inv := fun _ => rfl
      right_inv := fun _ => rfl }
  rw [Fintype.card_congr he]
  have hc : Fintype.card Color = 6 := rfl
  have hg : ∀ a b : Nat, Fintype.card (Grid a b) = 6 ^ (b * a) := by
    intro a b
    rw [show Fintype.card (Grid a b) = (Fintype.card (Fin b → Color)) ^ (Fintype.card (Fin a)) from Fintype.card_fun ..]
    rw [Fintype.card_fun, hc, Fintype.card_fin, Fintype.card_fin, ← pow_mul]
  simp only [Fintype.card_prod, hg]
  ring

theorem exploreLoop_spec {h w l : Nat} [NeZero h] [NeZero w] [NeZero l]
    (perm : Finset CubeMove) (pml : List CubeMove) :
    ∀ (fuel : Nat) (queue : List (CubeState h w l)) (g : ExploreGraph h w l),
      (g.trace ++ queue).Nodup →
      (∀ x ∈ g.trace ++ queue, x ∈ g.nodes) →
      g.nodes.Nodup →
      g.edges.length ≤ g.trace.length * pml.length →
      Fintype.card (CubeState h w l) + 1 - g.nodes.length + queue.length ≤ fuel →
      ∃ r, exploreLoop perm pml fuel queue g = some r ∧
        ∀ g2, r = .ok g2 → g2.trace.Nodup ∧
          g2.edges.length ≤ g2.nodes.length * pml.length
  | 0, queue, g => by
    intro hnd hmem hnodes hedge hfuel
    exfalso
    have hcard : g.nodes.length ≤ Fintype.card (CubeState h w l) := by
      have h1 : g.nodes.toFinset.card = g.nodes.length :=
        List.toFinset_card_of_nodup hnodes
      have h2 : g.nodes.toFinset.card ≤ Fintype.card (CubeState h w l) :=
        Finset.card_le_univ _
      omega
    omega
  | fuel + 1, queue, g => by
    intro hnd hmem hnodes hedge hfuel
    rcases queue with _ | ⟨cur, rest⟩
    · refine ⟨.ok g, by simp [exploreLoop], ?_⟩
      rintro g2 hg2
      have hg2' : g = g2 := Except.ok.inj hg2
      subst hg2'
      refine ⟨by simpa using hnd, ?_⟩
      have ht1 : g.trace.toFinset.card = g.trace.length :=
        List.toFinset_card_of_nodup (by simpa using hnd)
      have ht2 : g.trace.toFinset ⊆ g.nodes.toFinset := by
        intro x hx
        simp only [List.mem_toFinset] at hx ⊢
        exact hmem x (by simp [hx])
      have ht3 := Finset.card_le_card ht2
      have ht4 : g.nodes.toFinset.card ≤ g.nodes.length :=
        List.toFinset_card_le g.nodes
      have ht5 : g.trace.length * pml.length ≤ g.nodes.length * pml.length :=
        Nat.mul_le_mul_right pml.length (by omega)
      omega
    · rcases hexp : expandNode perm cur pml { g with trace := g.trace ++ [cur] } rest
        with e | ⟨g2, stack2⟩
      · refine ⟨.error e, by simp [exploreLoop, hexp], ?_⟩
        rintro g2 hg2
        exact absurd hg2 (by simp)
      · obtain ⟨news, hst, hnodes2, htr, hnews_nd, hnews_not, hedge2⟩ :=
          expandNode_spec perm cur pml _ rest g2 stack2 hexp
        have hnodes2' : g2.nodes = g.nodes ++ news.reverse := hnodes2
        have htr' : g2.trace = g.trace ++ [cur] := htr
        have hedge2' : g2.edges.length ≤ g.edges.length + pml.length := hedge2
        have hnews_not' : ∀ x ∈ news, x ∉ g.nodes := hnews_not
        have hINV1 : (g2.trace ++ stack2).Nodup := by
          rw [htr', hst]
          refine nodup_shuffle g.trace rest news cur hnd hnews_nd ?_
          intro x hx hxin
          exact hnews_not' x hx (hmem x hxin)
        have hINV2 : ∀ x ∈ g2.trace ++ stack2, x ∈ g2.nodes := by
          intro x hx
          rw [htr', hst] at hx
          rw [hnodes2']
          simp only [List.mem_append, List.mem_cons, List.not_mem_nil,
            or_false, List.mem_reverse] at hx ⊢
          rcases hx with (hx | hx) | (hx | hx)
          · exact .inl (hmem x (by simp [hx]))
          · exact .inl (hmem x (by simp [hx]))
          · exact .inr hx
          · exact .inl (hmem x (by simp [hx]))
        have hINV3 : g2.nodes.Nodup := by
          rw [hnodes2']
          refine List.nodup_append.mpr ⟨hnodes, List.nodup_reverse.mpr hnews_nd, ?_⟩
          intro x hx hxr
          exact hnews_not' x (List.mem_reverse.mp hxr) hx
        have hINV4 : g2.edges.length ≤ g2.trace.length * pml.length := by
          rw [htr']
          have hm : (g.trace ++ [cur]).length * pml.length
              = g.trace.length * pml.length + pml.length := by
            simp [List.length_append]
            ring
          omega
        have hINV5 : Fintype.card (CubeState h w l) + 1 - g2.nodes.length
            + stack2.length ≤ fuel := by
          have hl1 : g2.nodes.length = g.nodes.length + news.length := by
            rw [hnodes2']; simp
          have hl2 : stack2.length = news.length + rest.length := by
            rw [hst]; simp
          have hcard2 : g2.nodes.length ≤ Fintype.card (CubeState h w l) := by
            have h1 : g2.nodes.toFinset.card = g2.nodes.length :=
              List.toFinset_card_of_nodup hINV3
            have h2 : g2.nodes.toFinset.card ≤ Fintype.card (CubeState h w l) :=
              Finset.card_le_univ _
            omega
          simp only [List.length_cons] at hfuel
          omega
        obtain ⟨r, hr, hok⟩ := exploreLoop_spec perm pml fuel stack2 g2
          hINV1 hINV2 hINV3 hINV4 hINV5
        refine ⟨r, ?_, hok⟩
        simp only [exploreLoop, hexp]
        exact hr

/-- C8: for every dimension triple and every finite permitted move set the
explorer's frontier loop terminates — the fuel `6 ^ (2*(hw+hl+lw)) + 1`, one
more than the number of configurations, is never exhausted before the frontier
empties (or an exception aborts the run) — and no configuration is expanded
twice: the trace of configurations popped from the frontier has no
duplicates. -/
theorem explorer_terminates (h w l : Nat) [NeZero h] [NeZero w] [NeZero l]
    (pml : List CubeMove) :
    ∃ r, make_graph h w l pml = some r ∧
      ∀ g, r = Except.ok g → g.trace.Nodup := by
  have hmain := exploreLoop_spec
    (if pml = [] then (Finset.univ : Finset CubeMove) else pml.toFinset) pml
    (6 ^ (2 * (h * w + h * l + l * w)) + 1)
    [RubikCube.from_dims_state h w l]
    (initGraph (RubikCube.from_dims_state h w l))
    (by simp [initGraph])
    (by intro x hx; simpa [initGraph] using hx)
    (by simp [initGraph])
    (by simp [initGraph])
    (by
      rw [card_CubeState]
      dsimp only [initGraph, List.length_cons, List.length_nil]
      generalize 6 ^ (2 * (h * w + h * l + l * w)) = a
      omega)
  obtain ⟨r, hr, hok⟩ := hmain
  have hr' : make_graph h w l pml = some r := hr
  exact ⟨r, hr', fun g hg => (hok g hg).1⟩

/-- C8 witness: the concrete run on the 1x1x1 cube with permitted move U2. -/
theorem explorer_terminates_witness :
    ∃ r, make_graph 1 1 1 [CubeMove.U2] = some r ∧
      ∀ g, r = Except.ok g → g.trace.Nodup :=
  explorer_terminates 1 1 1 [CubeMove.U2]

/-- C4 (amended): every graph the explorer returns has at most
`node_count * |permitted_moves|` undirected edges (each expansion of a node
adds at most one edge per permitted movement, and every node is expanded at
most once). -/
theorem edge_bound {h w l : Nat} [NeZero h] [NeZero w] [NeZero l]
    (pml : List CubeMove) (g : ExploreGraph h w l)
    (hg : make_graph h w l pml = some (Except.ok g)) :
    g.edges.length ≤ g.nodes.length * pml.length := by
  have hmain := exploreLoop_spec
    (if pml = [] then (Finset.univ : Finset CubeMove) else pml.toFinset) pml
    (6 ^ (2 * (h * w + h * l + l * w)) + 1)
    [RubikCube.from_dims_state h w l]
    (initGraph (RubikCube.from_dims_state h w l))
    (by simp [initGraph])
    (by intro x hx; simpa [initGraph] using hx)
    (by simp [initGraph])
    (by simp [initGraph])
    (by
      rw [card_CubeState]
      dsimp only [initGraph, List.length_cons, List.length_nil]
      generalize 6 ^ (2 * (h * w + h * l + l * w)) = a
      omega)
  obtain ⟨r, hr, hok⟩ := hmain
  have hr' : make_graph h w l pml = some r := hr
  have : Except.ok g = r := Option.some.inj (hg.symm.trans hr')
  exact (hok g this.symm).2

/-- C4 witness: the bound instantiated at the concrete exploration of the
1x1x1 cube with permitted move U2. -/
theorem edge_bound_witness :
    exploredGraph_111_U2.edges.length ≤
      exploredGraph_111_U2.nodes.length * [CubeMove.U2].length :=
  edge_bound [CubeMove.U2] exploredGraph_111_U2 (by
    set_option maxRecDepth 1000000 in rfl)

theorem neighborsOf_eq_nbrsOfE {h w l : Nat} (g : ExploreGraph h w l)
    (c : CubeState h w l) : neighborsOf g c = nbrsOfE g.edges c := rfl

theorem mem_filterMap_lt {u : Nat} {L : List Nat} {p : Nat × Nat}
    (hp : p ∈ L.filterMap (fun v => if u < v then some (u, v) else none)) :
    p.1 = u ∧ u < p.2 ∧ p.2 ∈ L := by
  obtain ⟨v, hv, hite⟩ := List.mem_filterMap.mp hp
  by_cases hlt : u < v
  · rw [if_pos hlt] at hite
    obtain rfl := Option.some.inj hite
    exact ⟨rfl, hlt, hv⟩
  · rw [if_neg hlt] at hite
    exact absurd hite (by simp)

theorem make_simple_graph_keys {h w l : Nat} (g : ExploreGraph h w l) :
    (make_simple_graph g).map Prod.fst = g.nodes.map (node_id g) := by
  simp [make_simple_graph, List.map_map, Function.comp_def]

theorem lookup_map_key {γ α β : Type} [BEq α] [LawfulBEq α]
    (key : γ → α) (val : γ → β) :
    ∀ (ns : List γ) (n : γ), (ns.map key).Nodup → n ∈ ns →
      (ns.map (fun x => (key x, val x))).lookup (key n) = some (val n)
  | [], n => by
    intro _ hmem
    exact absurd hmem (List.not_mem_nil n)
  | m :: ms, n => by
    intro hnd hmem
    simp only [List.map_cons] at hnd ⊢
    rcases List.mem_cons.mp hmem with rfl | hin
    · exact List.lookup_cons_self
    · have hne : key n ≠ key m := by
        intro he
        have h1 : key m ∉ ms.map key := (List.nodup_cons.mp hnd).1
        exact h1 (he ▸ List.mem_map_of_mem key hin)
      rw [List.lookup_cons]
      have hb : (key n == key m) = false := beq_eq_false_iff_ne.mpr hne
      simp only [hb]
      exact lookup_map_key key val ms n (List.nodup_cons.mp hnd).2 hin

theorem node_id_inj {h w l : Nat} (g : ExploreGraph h w l) {a b : CubeState h w l}
    (ha : a ∈ g.nodes) (hb : b ∈ g.nodes) (hi : node_id g a = node_id g b) :
    a = b := by
  have hperm := List.perm_insertionSort
    (fun a b => cube_hash a ≤ cube_hash b) g.nodes
  exact (List.indexOf_inj (hperm.mem_iff.mpr ha) (hperm.mem_iff.mpr hb)).mp hi

theorem mem_nbrsOfE {h w l : Nat} {E : List (CubeState h w l × CubeState h w l)}
    {c x : CubeState h w l} (hx : x ∈ nbrsOfE E c) :
    (c, x) ∈ E ∨ (x, c) ∈ E := by
  unfold nbrsOfE at hx
  rcases List.mem_append.mp hx with hx | hx
  · obtain ⟨⟨e1, e2⟩, he, rfl⟩ := List.mem_map.mp hx
    obtain ⟨hmem, hc⟩ := List.mem_filter.mp he
    have h1 : e1 = c := by simpa using hc
    subst h1
    exact .inl hmem
  · obtain ⟨⟨e1, e2⟩, he, rfl⟩ := List.mem_map.mp hx
    obtain ⟨hmem, hc⟩ := List.mem_filter.mp he
    have h2 : e2 = c := by simpa using hc
    subst h2
    exact .inr hmem

theorem undirected_symm {h w l : Nat} :
    Symmetric (fun e f : CubeState h w l × CubeState h w l =>
      f ≠ e ∧ f ≠ (e.2, e.1)) := by
  rintro ⟨a1, a2⟩ ⟨b1, b2⟩ ⟨h1, h2⟩
  refine ⟨fun hc => h1 hc.symm, fun hc => ?_⟩
  apply h2
  have hc1 : a1 = b2 := congrArg Prod.fst hc
  have hc2 : a2 = b1 := congrArg Prod.snd hc
  simp [hc1, hc2]

theorem nbrsOfE_nodup {h w l : Nat} {E : List (CubeState h w l × CubeState h w l)}
    (hself : ∀ e ∈ E, e.1 ≠ e.2)
    (hund : E.Pairwise (fun e f => f ≠ e ∧ f ≠ (e.2, e.1)))
    (c : CubeState h w l) : (nbrsOfE E c).Nodup := by
  unfold nbrsOfE
  refine List.nodup_append.mpr ⟨?_, ?_, ?_⟩
  · have h1 : (E.filter (fun e => decide (e.1 = c))).Pairwise
        (fun e f => e.2 ≠ f.2) := by
      rw [List.pairwise_filter]
      refine hund.imp fun hR ha hb hsnd => ?_
      rename_i a b
      apply hR.1
      have ha' : b.1 = c := by simpa using hb
      have hb' : a.1 = c := by simpa using ha
      have : b.1 = a.1 := ha'.trans hb'.symm
      calc b = (b.1, b.2) := rfl
        _ = (a.1, a.2) := by rw [this, hsnd]
        _ = a := rfl
    exact List.Pairwise.map Prod.snd (fun a b hab => hab) h1
  · have h1 : (E.filter (fun e => decide (e.2 = c))).Pairwise
        (fun e f => e.1 ≠ f.1) := by
      rw [List.pairwise_filter]
      refine hund.imp fun hR ha hb hfst => ?_
      rename_i a b
      apply hR.1
      have ha' : b.2 = c := by simpa using hb
      have hb' : a.2 = c := by simpa using ha
      have : b.2 = a.2 := ha'.trans hb'.symm
      calc b = (b.1, b.2) := rfl
        _ = (a.1, a.2) := by rw [this, hfst]
        _ = a := rfl
    exact List.Pairwise.map Prod.fst (fun a b hab => hab) h1
  · intro x hxA hxB
    obtain ⟨⟨e1, e2⟩, he, hx1⟩ := List.mem_map.mp hxA
    obtain ⟨hmemA, hcA⟩ := List.mem_filter.mp he
    have h1 : e1 = c := by simpa using hcA
    obtain ⟨⟨f1, f2⟩, hf, hx2⟩ := List.mem_map.mp hxB
    obtain ⟨hmemB, hcB⟩ := List.mem_filter.mp hf
    have h2 : f2 = c := by simpa using hcB
    dsimp at hx1 hx2
    have hA : (c, x) ∈ E := by rw [← h1, ← hx1]; exact hmemA
    have hB : (x, c) ∈ E := by rw [← h2, ← hx2]; exact hmemB
    by_cases heq : ((c, x) : CubeState h w l × CubeState h w l) = (x, c)
    · have hc : c = x := congrArg Prod.fst heq
      exact hself (c, x) hA (by simpa using hc)
    · have hfa := (hund.forall undirected_symm) hA hB heq
      exact hfa.2 rfl

theorem nbrIds_nodup {h w l : Nat} (g : ExploreGraph h w l)
    (hend : ∀ e ∈ g.edges, e.1 ∈ g.nodes ∧ e.2 ∈ g.nodes)
    (hself : ∀ e ∈ g.edges, e.1 ≠ e.2)
    (hund : g.edges.Pairwise (fun e f => f ≠ e ∧ f ≠ (e.2, e.1)))
    (n : CubeState h w l) :
    ((neighborsOf g n).map (node_id g)).Nodup := by
  refine List.Nodup.map_on ?_
    (by rw [neighborsOf_eq_nbrsOfE]; exact nbrsOfE_nodup hself hund n)
  intro x hx y hy hxy
  rw [neighborsOf_eq_nbrsOfE] at hx hy
  have hxn : x ∈ g.nodes := by
    rcases mem_nbrsOfE hx with hm | hm
    · exact (hend _ hm).2
    · exact (hend _ hm).1
  have hyn : y ∈ g.nodes := by
    rcases mem_nbrsOfE hy with hm | hm
    · exact (hend _ hm).2
    · exact (hend _ hm).1
  exact node_id_inj g hxn hyn hxy

theorem msg_lookup {h w l : Nat} (g : ExploreGraph h w l)
    (hnd : g.nodes.Nodup) {n : CubeState h w l} (hn : n ∈ g.nodes) :
    (make_simple_graph g).lookup (node_id g n) =
      some (((neighborsOf g n).map (node_id g)).dedup) := by
  have hkeys : (g.nodes.map (node_id g)).Nodup :=
    List.Nodup.map_on (fun x hx y hy => node_id_inj g hx hy) hnd
  exact lookup_map_key (node_id g)
    (fun n => ((neighborsOf g n).map (node_id g)).dedup) g.nodes n hkeys hn

theorem gfp_perm {h w l : Nat} (g : ExploreGraph h w l)
    (hnd : g.nodes.Nodup)
    (hend : ∀ e ∈ g.edges, e.1 ∈ g.nodes ∧ e.2 ∈ g.nodes)
    (hself : ∀ e ∈ g.edges, e.1 ≠ e.2)
    (hund : g.edges.Pairwise (fun e f => f ≠ e ∧ f ≠ (e.2, e.1))) :
    List.Perm (generate_file_pairs g)
      (g.nodes.flatMap (fun n => edgeBucket (node_id g) g.edges n)) := by
  show List.Perm ((sort_list ((make_simple_graph g).map Prod.fst)).flatMap
      (fun u => (sort_list (((make_simple_graph g).lookup u).getD [])).filterMap
        (fun v => if u < v then some (u, v) else none))) _
  unfold sort_list
  refine ((List.perm_insertionSort _ _).flatMap_right _).trans ?_
  rw [make_simple_graph_keys, List.flatMap_map]
  refine List.Perm.flatMap_left _ ?_
  intro n hn
  rw [msg_lookup g hnd hn]
  simp only [Option.getD_some]
  rw [List.dedup_eq_self.mpr (nbrIds_nodup g hend hself hund n)]
  refine ((List.perm_insertionSort _ _).filterMap _).trans ?_
  rw [neighborsOf_eq_nbrsOfE]
  exact List.Perm.refl _

theorem coe_flatMap {α β : Type} (f : α → List β) :
    ∀ ns : List α, ((ns.flatMap f : List β) : Multiset β) =
      (Multiset.map (fun a => (f a : Multiset β)) (↑ns : Multiset α)).sum
  | [] => by simp
  | a :: ns => by
    rw [List.flatMap_cons, ← Multiset.coe_add, coe_flatMap f ns,
      ← Multiset.cons_coe, Multiset.map_cons, Multiset.sum_cons]

theorem edgeBucket_nil {h w l : Nat} (nid : CubeState h w l → Nat)
    (n : CubeState h w l) : edgeBucket nid [] n = [] := rfl

theorem fm_single (u x : Nat) (L : List Nat) :
    (↑((x :: L).filterMap (fun v => if u < v then some (u, v) else none)) :
        Multiset (Nat × Nat)) =
      ↑(if u < x then [(u, x)] else []) +
        ↑(L.filterMap (fun v => if u < v then some (u, v) else none)) := by
  by_cases c : u < x
  · simp only [List.filterMap_cons, if_pos c]
    rfl
  · simp only [List.filterMap_cons, if_neg c]
    simp

theorem edgeBucket_cons {h w l : Nat} (nid : CubeState h w l → Nat)
    (e : CubeState h w l × CubeState h w l)
    (E : List (CubeState h w l × CubeState h w l)) (n : CubeState h w l) :
    ((edgeBucket nid (e :: E) n : List (Nat × Nat)) : Multiset (Nat × Nat)) =
      ↑(bucketAdd nid e n) + ↑(edgeBucket nid E n) := by
  unfold edgeBucket bucketAdd nbrsOfE
  by_cases h1 : e.1 = n <;> by_cases h2 : e.2 = n
  · rw [List.filter_cons_of_pos (by simp [h1]), List.filter_cons_of_pos (by simp [h2]),
      if_pos h1, if_pos h2]
    simp only [List.map_cons, List.map_append, List.filterMap_append,
      ← Multiset.coe_add]
    rw [fm_single, fm_single]
    abel
  · rw [List.filter_cons_of_pos (by simp [h1]), List.filter_cons_of_neg (by simp [h2]),
      if_pos h1, if_neg h2]
    simp only [List.map_cons, List.map_append, List.filterMap_append,
      List.append_nil, ← Multiset.coe_add]
    rw [fm_single]
    abel
  · rw [List.filter_cons_of_neg (by simp [h1]), List.filter_cons_of_pos (by simp [h2]),
      if_neg h1, if_pos h2]
    simp only [List.map_cons, List.map_append, List.filterMap_append,
      List.nil_append, ← Multiset.coe_add]
    rw [fm_single]
    abel
  · rw [List.filter_cons_of_neg (by simp [h1]), List.filter_cons_of_neg (by simp [h2]),
      if_neg h1, if_neg h2]
    simp

theorem sum_ite_zero {γ β : Type} [DecidableEq γ] [AddCommMonoid β]
    (a : γ) (f : γ → β) :
    ∀ ns : List γ, a ∉ ns →
      (Multiset.map (fun n => if a = n then f n else 0) (↑ns : Multiset γ)).sum = 0
  | [], _ => by simp
  | m :: ns, hmem => by
    rw [← Multiset.cons_coe, Multiset.map_cons, Multiset.sum_cons,
      if_neg (by rintro rfl; exact hmem (List.mem_cons_self _ _)), zero_add]
    exact sum_ite_zero a f ns (fun hc => hmem (List.mem_cons_of_mem m hc))

theorem sum_ite_eq_list {γ β : Type} [DecidableEq γ] [AddCommMonoid β]
    (a : γ) (f : γ → β) :
    ∀ ns : List γ, ns.Nodup → a ∈ ns →
      (Multiset.map (fun n => if a = n then f n else 0) (↑ns : Multiset γ)).sum = f a
  | [], _, hmem => absurd hmem (List.not_mem_nil a)
  | m :: ns, hnd, hmem => by
    rw [← Multiset.cons_coe, Multiset.map_cons, Multiset.sum_cons]
    by_cases hc : a = m
    · subst hc
      rw [if_pos rfl, sum_ite_zero a f ns (List.nodup_cons.mp hnd).1, add_zero]
    · rw [if_neg hc, zero_add]
      have hm : a ∈ ns := by
        rcases List.mem_cons.mp hmem with h | h
        · exact absurd h hc
        · exact h
      exact sum_ite_eq_list a f ns (List.nodup_cons.mp hnd).2 hm

theorem bucketAdd_coe {h w l : Nat} (nid : CubeState h w l → Nat)
    (e : CubeState h w l × CubeState h w l) (n : CubeState h w l) :
    (↑(bucketAdd nid e n) : Multiset (Nat × Nat)) =
      (if e.1 = n then
        (↑(if nid n < nid e.2 then [(nid n, nid e.2)] else []) : Multiset (Nat × Nat))
       else 0) +
      (if e.2 = n then
        (↑(if nid n < nid e.1 then [(nid n, nid e.1)] else []) : Multiset (Nat × Nat))
       else 0) := by
  unfold bucketAdd
  by_cases h1 : e.1 = n <;> by_cases h2 : e.2 = n <;>
    simp [h1, h2, ← Multiset.coe_add]

theorem sum_bucketAdd {h w l : Nat} (nid : CubeState h w l → Nat)
    (nodes : List (CubeState h w l)) (hnd : nodes.Nodup)
    (e : CubeState h w l × CubeState h w l)
    (h1 : e.1 ∈ nodes) (h2 : e.2 ∈ nodes) (hne : nid e.1 ≠ nid e.2) :
    (Multiset.map (fun n => (↑(bucketAdd nid e n) : Multiset (Nat × Nat)))
        (↑nodes : Multiset (CubeState h w l))).sum =
      {(min (nid e.1) (nid e.2), max (nid e.1) (nid e.2))} := by
  have hrw : (fun n => (↑(bucketAdd nid e n) : Multiset (Nat × Nat))) =
      fun n =>
        (if e.1 = n then
          (↑(if nid n < nid e.2 then [(nid n, nid e.2)] else []) :
            Multiset (Nat × Nat))
         else 0) +
        (if e.2 = n then
          (↑(if nid n < nid e.1 then [(nid n, nid e.1)] else []) :
            Multiset (Nat × Nat))
         else 0) :=
    funext (bucketAdd_coe nid e)
  rw [hrw, Multiset.sum_map_add]
  rw [sum_ite_eq_list e.1 _ nodes hnd h1, sum_ite_eq_list e.2 _ nodes hnd h2]
  rcases Nat.lt_trichotomy (nid e.1) (nid e.2) with hlt | heq | hgt
  · rw [if_pos hlt, if_neg (by omega), min_eq_left hlt.le, max_eq_right hlt.le]
    simp
  · exact absurd heq hne
  · rw [if_neg (by omega), if_pos hgt, min_eq_right hgt.le, max_eq_left hgt.le]
    simp

theorem handshake {h w l : Nat} (nid : CubeState h w l → Nat)
    (nodes : List (CubeState h w l)) (hnd : nodes.Nodup) :
    ∀ E : List (CubeState h w l × CubeState h w l),
      (∀ e ∈ E, e.1 ∈ nodes ∧ e.2 ∈ nodes ∧ nid e.1 ≠ nid e.2) →
      ((nodes.flatMap (fun n => edgeBucket nid E n) : List (Nat × Nat)) :
          Multiset (Nat × Nat)) =
        ↑(E.map (fun e => (min (nid e.1) (nid e.2), max (nid e.1) (nid e.2))))
  | [], _ => by
    rw [coe_flatMap]
    simp [edgeBucket_nil]
  | e :: E, hE => by
    have ih := handshake nid nodes hnd E
      (fun f hf => hE f (List.mem_cons_of_mem e hf))
    rw [coe_flatMap] at ih ⊢
    have hcongr : Multiset.map
        (fun n => (↑(edgeBucket nid (e :: E) n) : Multiset (Nat × Nat)))
        (↑nodes : Multiset (CubeState h w l)) =
      Multiset.map
        (fun n => ↑(bucketAdd nid e n) +
          (↑(edgeBucket nid E n) : Multiset (Nat × Nat)))
        (↑nodes : Multiset (CubeState h w l)) :=
      Multiset.map_congr rfl (fun n _ => edgeBucket_cons nid e E n)
    rw [hcongr, Multiset.sum_map_add, ih]
    obtain ⟨he1, he2, hne⟩ := hE e (List.mem_cons_self e E)
    rw [sum_bucketAdd nid nodes hnd e he1 he2 hne]
    rw [List.map_cons, ← Multiset.cons_coe, ← Multiset.singleton_add]

theorem gfp_perm_edges {h w l : Nat} (g : ExploreGraph h w l)
    (hnd : g.nodes.Nodup)
    (hend : ∀ e ∈ g.edges, e.1 ∈ g.nodes ∧ e.2 ∈ g.nodes)
    (hself : ∀ e ∈ g.edges, e.1 ≠ e.2)
    (hund : g.edges.Pairwise (fun e f => f ≠ e ∧ f ≠ (e.2, e.1))) :
    List.Perm (generate_file_pairs g) (g.edges.map (idPair g)) := by
  refine (gfp_perm g hnd hend hself hund).trans ?_
  refine Multiset.coe_eq_coe.mp ?_
  have hmain := handshake (node_id g) g.nodes hnd g.edges (fun e he =>
    ⟨(hend e he).1, (hend e he).2, fun hc =>
      hself e he (node_id_inj g (hend e he).1 (hend e he).2 hc)⟩)
  exact hmain

theorem gfp_sorted {h w l : Nat} (g : ExploreGraph h w l) (hnd : g.nodes.Nodup) :
    (generate_file_pairs g).Pairwise
      (fun p q => p.1 < q.1 ∨ (p.1 = q.1 ∧ p.2 < q.2)) := by
  show ((sort_list ((make_simple_graph g).map Prod.fst)).flatMap
      (fun u => (sort_list (((make_simple_graph g).lookup u).getD [])).filterMap
        (fun v => if u < v then some (u, v) else none))).Pairwise _
  refine List.pairwise_flatMap.mpr ⟨?_, ?_⟩
  · intro u hu
    have hmem' : u ∈ (make_simple_graph g).map Prod.fst := by
      simpa [sort_list] using hu
    rw [make_simple_graph_keys] at hmem'
    obtain ⟨n, hn, rfl⟩ := List.mem_map.mp hmem'
    rw [msg_lookup g hnd hn, Option.getD_some]
    have hsorted :
        (sort_list (((neighborsOf g n).map (node_id g)).dedup)).Sorted
          (fun a b => a ≤ b) :=
      List.sorted_insertionSort _ _
    have hnodupS :
        (sort_list (((neighborsOf g n).map (node_id g)).dedup)).Nodup :=
      ((List.perm_insertionSort _ _).nodup_iff).mpr (List.nodup_dedup _)
    have hlt :
        (sort_list (((neighborsOf g n).map (node_id g)).dedup)).Pairwise
          (· < ·) :=
      (List.Pairwise.and hsorted hnodupS).imp
        (fun hab => lt_of_le_of_ne hab.1 hab.2)
    refine List.Pairwise.filterMap _ ?_ hlt
    intro a b hab x hx y hy
    by_cases ca : node_id g n < a
    · rw [if_pos ca] at hx
      obtain rfl := (Option.mem_some_iff.mp hx).symm
      by_cases cb : node_id g n < b
      · rw [if_pos cb] at hy
        obtain rfl := (Option.mem_some_iff.mp hy).symm
        exact Or.inr ⟨rfl, hab⟩
      · rw [if_neg cb] at hy
        exact absurd hy (by simp)
    · rw [if_neg ca] at hx
      exact absurd hx (by simp)
  · have hkeysnd : ((make_simple_graph g).map Prod.fst).Nodup := by
      rw [make_simple_graph_keys]
      exact List.Nodup.map_on (fun x hx y hy => node_id_inj g hx hy) hnd
    have hsorted :
        (sort_list ((make_simple_graph g).map Prod.fst)).Sorted
          (fun a b => a ≤ b) :=
      List.sorted_insertionSort _ _
    have hnodupS : (sort_list ((make_simple_graph g).map Prod.fst)).Nodup :=
      ((List.perm_insertionSort _ _).nodup_iff).mpr hkeysnd
    have hlt :
        (sort_list ((make_simple_graph g).map Prod.fst)).Pairwise (· < ·) :=
      (List.Pairwise.and hsorted hnodupS).imp
        (fun hab => lt_of_le_of_ne hab.1 hab.2)
    refine hlt.imp ?_
    intro u1 u2 h12 p hp q hq
    exact Or.inl (by
      rw [(mem_filterMap_lt hp).1, (mem_filterMap_lt hq).1]
      exact h12)

theorem gfp_mem_lt {h w l : Nat} (g : ExploreGraph h w l) {p : Nat × Nat}
    (hp : p ∈ generate_file_pairs g) : p.1 < p.2 := by
  have hp' : p ∈ (sort_list ((make_simple_graph g).map Prod.fst)).flatMap
      (fun u => (sort_list (((make_simple_graph g).lookup u).getD [])).filterMap
        (fun v => if u < v then some (u, v) else none)) := hp
  obtain ⟨u, hu, hpu⟩ := List.mem_flatMap.mp hp'
  obtain ⟨h1, h2, _⟩ := mem_filterMap_lt hpu
  omega


theorem rotate_two_some {h w l : Nat} [NeZero h] [NeZero w] [NeZero l]
    (c : CubeState h w l) (f : FaceName) :
    ∃ c1, Face.rotate c f 2 = some c1 := by
  obtain ⟨r0, r1, r2, r3, hr⟩ := rawPieces_shape c f
  have hlen := rawPieces_map_length c f
  rw [hr] at hlen
  simp only [List.map_cons, List.map_nil] at hlen
  have hp : Face.pieces c f = invert_pieces (direc_list f) [r0, r1, r2, r3] := by
    rw [Face.pieces, hr]
  have hcond : (invert_pieces (direc_list f)
      (rotate_pieces (Face.pieces c f) (2 % 4))).map List.length
      = slot_lens h w l f := by
    rw [hp, show (2 : Nat) % 4 = 2 from rfl, invert_pieces_four,
      rotate_pieces_two, map_length_invert_pieces]
    have e0 : (if (direc_list f).getD 0 .U ∈ [Direc.U, Direc.R]
        then r0.reverse else r0).length = r0.length := by split_ifs <;> simp
    have e1 : (if (direc_list f).getD 1 .U ∈ [Direc.U]
        then r1.reverse else r1).length = r1.length := by split_ifs <;> simp
    have e2 : (if (direc_list f).getD 2 .U ∈ [Direc.D, Direc.L]
        then r2.reverse else r2).length = r2.length := by split_ifs <;> simp
    have e3 : (if (direc_list f).getD 3 .U ∈ [Direc.D]
        then r3.reverse else r3).length = r3.length := by split_ifs <;> simp
    simp only [List.length_reverse, e0, e1, e2, e3]
    cases f <;> (simp [slot_lens] at hlen ⊢; omega)
  exact ⟨_, by rw [Face.rotate_def, if_pos hcond]⟩

theorem graphStep_even_ok {h w l : Nat} [NeZero h] [NeZero w] [NeZero l]
    (perm : Finset CubeMove) (s : CubeState h w l) (m : CubeMove)
    (hm : m ∈ perm) (ht : m.turns = 2) :
    ∃ s1, graphStep perm s m = Except.ok s1 := by
  obtain ⟨c1, hc1⟩ := rotate_two_some s m.face
  refine ⟨c1, ?_⟩
  unfold graphStep RubikCube.make_a_move
  rw [if_pos hm]
  unfold CubeMove.move_the_cube
  rw [ht, hc1]
  rfl

theorem expandNode_ok {h w l : Nat} [NeZero h] [NeZero w] [NeZero l]
    (perm : Finset CubeMove) (cur : CubeState h w l) :
    ∀ (ms : List CubeMove) (g : ExploreGraph h w l)
      (stack : List (CubeState h w l)),
      (∀ m ∈ ms, m ∈ perm ∧ m.turns = 2) →
      ∃ gs, expandNode perm cur ms g stack = Except.ok gs
  | [], g, stack, _ => ⟨(g, stack), rfl⟩
  | m :: ms, g, stack, hms => by
    obtain ⟨s1, hs1⟩ := graphStep_even_ok perm cur m
      (hms m (List.mem_cons_self _ _)).1 (hms m (List.mem_cons_self _ _)).2
    simp only [expandNode, hs1]
    exact expandNode_ok perm cur ms _ _
      (fun x hx => hms x (List.mem_cons_of_mem m hx))

theorem exploreLoop_ok {h w l : Nat} [NeZero h] [NeZero w] [NeZero l]
    (perm : Finset CubeMove) (pml : List CubeMove)
    (hmoves : ∀ m ∈ pml, m ∈ perm ∧ m.turns = 2) :
    ∀ (fuel : Nat) (queue : List (CubeState h w l)) (g : ExploreGraph h w l)
      (r : Except MoveErr (ExploreGraph h w l)),
      exploreLoop perm pml fuel queue g = some r →
      ∃ g2, r = Except.ok g2
  | 0, queue, g, r => by
    intro hx
    exact absurd hx (by simp [exploreLoop])
  | fuel + 1, queue, g, r => by
    intro hx
    rcases queue with _ | ⟨cur, rest⟩
    · refine ⟨g, ?_⟩
      have h1 : some (Except.ok g) = some r := by rw [← hx]; rfl
      exact (Option.some.inj h1).symm
    · obtain ⟨⟨g3, stack3⟩, hexp⟩ := expandNode_ok perm cur pml
        { g with trace := g.trace ++ [cur] } rest hmoves
      rw [show exploreLoop perm pml (fuel + 1) (cur :: rest) g
          = exploreLoop perm pml fuel stack3 g3 from by
        simp only [exploreLoop, hexp]] at hx
      exact exploreLoop_ok perm pml hmoves fuel stack3 g3 r hx

theorem make_graph_ok (h w l : Nat) [NeZero h] [NeZero w] [NeZero l]
    (pml : List CubeMove) (ht : ∀ m ∈ pml, m.turns = 2) :
    ∃ g, make_graph h w l pml = some (Except.ok g) := by
  have hmain := exploreLoop_spec (permOf pml) pml
    (6 ^ (2 * (h * w + h * l + l * w)) + 1)
    [RubikCube.from_dims_state h w l]
    (initGraph (RubikCube.from_dims_state h w l))
    (by simp [initGraph])
    (by intro x hx; simpa [initGraph] using hx)
    (by simp [initGraph])
    (by simp [initGraph])
    (by
      rw [card_CubeState]
      dsimp only [initGraph, List.length_cons, List.length_nil]
      generalize 6 ^ (2 * (h * w + h * l + l * w)) = a
      omega)
  obtain ⟨r, hr, _⟩ := hmain
  have hperm : ∀ m ∈ pml, m ∈ permOf pml ∧ m.turns = 2 := by
    intro m hm
    constructor
    · unfold permOf
      split
      · exact Finset.mem_univ m
      · exact List.mem_toFinset.mpr hm
    · exact ht m hm
  obtain ⟨g2, hg2⟩ := exploreLoop_ok (permOf pml) pml hperm _ _ _ r hr
  subst hg2
  exact ⟨g2, hr⟩

theorem nbrsOfE_mem_iff {h w l : Nat} {E : List (CubeState h w l × CubeState h w l)}
    {c x : CubeState h w l} :
    x ∈ nbrsOfE E c ↔ (c, x) ∈ E ∨ (x, c) ∈ E := by
  constructor
  · exact mem_nbrsOfE
  · intro hx
    unfold nbrsOfE
    rcases hx with hx | hx
    · refine List.mem_append.mpr (.inl ?_)
      exact List.mem_map.mpr ⟨(c, x), List.mem_filter.mpr ⟨hx, by simp⟩, rfl⟩
    · refine List.mem_append.mpr (.inr ?_)
      exact List.mem_map.mpr ⟨(x, c), List.mem_filter.mpr ⟨hx, by simp⟩, rfl⟩

theorem mkEdge_cases {h w l : Nat} (a b : CubeState h w l) :
    mkEdge a b = (a, b) ∨ mkEdge a b = (b, a) := by
  unfold mkEdge
  split
  · exact .inl rfl
  · exact .inr rfl

theorem mkEdge_self {h w l : Nat} (a : CubeState h w l) :
    mkEdge a a = (a, a) := by
  rcases mkEdge_cases a a with hk | hk <;> exact hk

theorem mkEdge_fresh {h w l : Nat} {g : ExploreGraph h w l}
    {cur other : CubeState h w l} (hadj : other ∉ neighborsOf g cur) :
    ∀ e ∈ g.edges, mkEdge cur other ≠ e ∧ mkEdge cur other ≠ (e.2, e.1) := by
  intro e he
  have hno : ¬((cur, other) ∈ g.edges ∨ (other, cur) ∈ g.edges) := by
    intro hor
    exact hadj ((neighborsOf_eq_nbrsOfE g cur) ▸ nbrsOfE_mem_iff.mpr hor)
  rcases mkEdge_cases cur other with hk | hk <;> rw [hk] <;> constructor
  · intro heq
    exact hno (.inl (by rw [heq]; exact he))
  · intro heq
    have ha : cur = e.2 := congrArg Prod.fst heq
    have hb : other = e.1 := congrArg Prod.snd heq
    refine hno (.inr ?_)
    have hee : e = (other, cur) := by
      calc e = (e.1, e.2) := rfl
        _ = (other, cur) := by rw [← ha, ← hb]
    rw [← hee]
    exact he
  · intro heq
    exact hno (.inr (by rw [heq]; exact he))
  · intro heq
    have ha : other = e.2 := congrArg Prod.fst heq
    have hb : cur = e.1 := congrArg Prod.snd heq
    refine hno (.inl ?_)
    have hee : e = (cur, other) := by
      calc e = (e.1, e.2) := rfl
        _ = (cur, other) := by rw [← ha, ← hb]
    rw [← hee]
    exact he

theorem expandNode_inv {h w l : Nat} [NeZero h] [NeZero w] [NeZero l]
    (perm : Finset CubeMove) (cur : CubeState h w l) :
    ∀ (ms : List CubeMove) (g : ExploreGraph h w l)
      (stack : List (CubeState h w l)) (g1 : ExploreGraph h w l)
      (stack1 : List (CubeState h w l)),
      expandNode perm cur ms g stack = .ok (g1, stack1) →
      cur ∈ g.nodes →
      (∀ e ∈ g.edges, e.1 ∈ g.nodes ∧ e.2 ∈ g.nodes) →
      g.edges.Pairwise (fun e f => f ≠ e ∧ f ≠ (e.2, e.1)) →
      (∀ x ∈ g.nodes, x ∈ g1.nodes) ∧
      (∀ e ∈ g.edges, e ∈ g1.edges) ∧
      (∀ e ∈ g1.edges, e.1 ∈ g1.nodes ∧ e.2 ∈ g1.nodes) ∧
      g1.edges.Pairwise (fun e f => f ≠ e ∧ f ≠ (e.2, e.1)) ∧
      (∀ m1 ∈ ms, ∀ y, graphStep perm cur m1 = Except.ok y →
        y ∈ g1.nodes ∧ (y = cur → (cur, cur) ∈ g1.edges))
  | [], g, stack, g1, stack1 => by
    intro hx hcur hend hund
    simp only [expandNode] at hx
    obtain rfl : g = g1 := congrArg (fun p => p.1) (Except.ok.inj hx)
    exact ⟨fun x hx => hx, fun e he => he, hend, hund, by simp⟩
  | m :: ms, g, stack, g1, stack1 => by
    intro hx hcur hend hund
    simp only [expandNode] at hx
    split at hx
    case h_1 => exact absurd hx (by simp)
    case h_2 other hstep =>
      by_cases hmem : other ∈ g.nodes
      · rw [if_pos hmem] at hx
        dsimp only at hx
        by_cases hadj : other ∈ neighborsOf g cur
        · rw [if_pos hadj] at hx
          obtain ⟨hmono, hsub, hend1, hund1, hclos⟩ :=
            expandNode_inv perm cur ms _ _ _ _ hx hcur hend hund
          refine ⟨hmono, hsub, hend1, hund1, ?_⟩
          intro m1 hm1 y hy
          rcases List.mem_cons.mp hm1 with rfl | hm1
          · have hoy : other = y := Except.ok.inj (hstep.symm.trans hy)
            rw [← hoy]
            refine ⟨hmono other hmem, ?_⟩
            intro heq
            rw [heq] at hadj
            have hloop : (cur, cur) ∈ g.edges := by
              rcases mem_nbrsOfE
                ((neighborsOf_eq_nbrsOfE g cur) ▸ hadj) with hc | hc
              · exact hc
              · exact hc
            exact hsub _ hloop
          · exact hclos m1 hm1 y hy
        · rw [if_neg hadj] at hx
          have hcur3 : cur ∈ g.nodes := hcur
          have hend3 : ∀ e ∈ g.edges ++ [mkEdge cur other],
              e.1 ∈ g.nodes ∧ e.2 ∈ g.nodes := by
            intro e he
            rcases List.mem_append.mp he with he | he
            · exact hend e he
            · rw [List.mem_singleton.mp he]
              rcases mkEdge_cases cur other with hk | hk <;> rw [hk]
              · exact ⟨hcur, hmem⟩
              · exact ⟨hmem, hcur⟩
          have hund3 : (g.edges ++ [mkEdge cur other]).Pairwise
              (fun e f => f ≠ e ∧ f ≠ (e.2, e.1)) := by
            refine List.pairwise_append.mpr
              ⟨hund, List.pairwise_singleton _ _, ?_⟩
            intro e he k hk
            rw [List.mem_singleton.mp hk]
            exact mkEdge_fresh hadj e he
          obtain ⟨hmono, hsub, hend1, hund1, hclos⟩ :=
            expandNode_inv perm cur ms _ _ _ _ hx hcur3 hend3 hund3
          refine ⟨hmono, fun e he => hsub e (List.mem_append.mpr (.inl he)),
            hend1, hund1, ?_⟩
          intro m1 hm1 y hy
          rcases List.mem_cons.mp hm1 with rfl | hm1
          · have hoy : other = y := Except.ok.inj (hstep.symm.trans hy)
            rw [← hoy]
            refine ⟨hmono other hmem, ?_⟩
            intro heq
            refine hsub (cur, cur) ?_
            refine List.mem_append.mpr (.inr ?_)
            rw [heq, mkEdge_self]
            exact List.mem_singleton.mpr rfl
          · exact hclos m1 hm1 y hy
      · rw [if_neg hmem] at hx
        dsimp only at hx
        by_cases hadj : other ∈
            neighborsOf { g with nodes := g.nodes ++ [other] } cur
        · rw [if_pos hadj] at hx
          have hcur3 : cur ∈ g.nodes ++ [other] :=
            List.mem_append.mpr (.inl hcur)
          have hend3 : ∀ e ∈ g.edges,
              e.1 ∈ g.nodes ++ [other] ∧ e.2 ∈ g.nodes ++ [other] := by
            intro e he
            exact ⟨List.mem_append.mpr (.inl (hend e he).1),
              List.mem_append.mpr (.inl (hend e he).2)⟩
          obtain ⟨hmono, hsub, hend1, hund1, hclos⟩ :=
            expandNode_inv perm cur ms _ _ _ _ hx hcur3 hend3 hund
          refine ⟨fun x hxg => hmono x (List.mem_append.mpr (.inl hxg)),
            hsub, hend1, hund1, ?_⟩
          intro m1 hm1 y hy
          rcases List.mem_cons.mp hm1 with rfl | hm1
          · have hoy : other = y := Except.ok.inj (hstep.symm.trans hy)
            rw [← hoy]
            refine ⟨hmono other (List.mem_append.mpr (.inr (by simp))), ?_⟩
            intro heq
            have hadj2 : other ∈ neighborsOf g cur := hadj
            rw [heq] at hadj2
            have hloop : (cur, cur) ∈ g.edges := by
              rcases mem_nbrsOfE
                ((neighborsOf_eq_nbrsOfE g cur) ▸ hadj2) with hc | hc
              · exact hc
              · exact hc
            exact hsub _ hloop
          · exact hclos m1 hm1 y hy
        · rw [if_neg hadj] at hx
          have hadj' : other ∉ neighborsOf g cur := hadj
          have hcur3 : cur ∈ g.nodes ++ [other] :=
            List.mem_append.mpr (.inl hcur)
          have hend3 : ∀ e ∈ g.edges ++ [mkEdge cur other],
              e.1 ∈ g.nodes ++ [other] ∧ e.2 ∈ g.nodes ++ [other] := by
            intro e he
            rcases List.mem_append.mp he with he | he
            · exact ⟨List.mem_append.mpr (.inl (hend e he).1),
                List.mem_append.mpr (.inl (hend e he).2)⟩
            · rw [List.mem_singleton.mp he]
              rcases mkEdge_cases cur other with hk | hk <;> rw [hk]
              · exact ⟨List.mem_append.mpr (.inl hcur),
                  List.mem_append.mpr (.inr (by simp))⟩
              · exact ⟨List.mem_append.mpr (.inr (by simp)),
                  List.mem_append.mpr (.inl hcur)⟩
          have hund3 : (g.edges ++ [mkEdge cur other]).Pairwise
              (fun e f => f ≠ e ∧ f ≠ (e.2, e.1)) := by
            refine List.pairwise_append.mpr
              ⟨hund, List.pairwise_singleton _ _, ?_⟩
            intro e he k hk
            rw [List.mem_singleton.mp hk]
            exact mkEdge_fresh hadj' e he
          obtain ⟨hmono, hsub, hend1, hund1, hclos⟩ :=
            expandNode_inv perm cur ms _ _ _ _ hx hcur3 hend3 hund3
          refine ⟨fun x hxg => hmono x (List.mem_append.mpr (.inl hxg)),
            fun e he => hsub e (List.mem_append.mpr (.inl he)),
            hend1, hund1, ?_⟩
          intro m1 hm1 y hy
          rcases List.mem_cons.mp hm1 with rfl | hm1
          · have hoy : other = y := Except.ok.inj (hstep.symm.trans hy)
            rw [← hoy]
            refine ⟨hmono other (List.mem_append.mpr (.inr (by simp))), ?_⟩
            intro heq
            refine hsub (cur, cur) ?_
            refine List.mem_append.mpr (.inr ?_)
            rw [heq, mkEdge_self]
            exact List.mem_singleton.mpr rfl
          · exact hclos m1 hm1 y hy

theorem exploreLoop_inv {h w l : Nat} [NeZero h] [NeZero w] [NeZero l]
    (perm : Finset CubeMove) (pml : List CubeMove) :
    ∀ (fuel : Nat) (queue : List (CubeState h w l)) (g : ExploreGraph h w l)
      (r : Except MoveErr (ExploreGraph h w l)),
      exploreLoop perm pml fuel queue g = some r →
      (∀ x ∈ queue, x ∈ g.nodes) →
      queue.Nodup →
      g.nodes.Nodup →
      (∀ e ∈ g.edges, e.1 ∈ g.nodes ∧ e.2 ∈ g.nodes) →
      g.edges.Pairwise (fun e f => f ≠ e ∧ f ≠ (e.2, e.1)) →
      (∀ x ∈ g.nodes, x ∉ queue →
        ∀ m ∈ pml, ∀ y, graphStep perm x m = Except.ok y →
          y ∈ g.nodes ∧ (y = x → (x, x) ∈ g.edges)) →
      ∀ g2, r = Except.ok g2 →
        (∀ x ∈ g.nodes, x ∈ g2.nodes) ∧
        g2.nodes.Nodup ∧
        (∀ e ∈ g2.edges, e.1 ∈ g2.nodes ∧ e.2 ∈ g2.nodes) ∧
        g2.edges.Pairwise (fun e f => f ≠ e ∧ f ≠ (e.2, e.1)) ∧
        (∀ x ∈ g2.nodes, ∀ m ∈ pml, ∀ y, graphStep perm x m = Except.ok y →
          y ∈ g2.nodes ∧ (y = x → (x, x) ∈ g2.edges))
  | 0, queue, g, r => by
    intro hx
    exact absurd hx (by simp [exploreLoop])
  | fuel + 1, queue, g, r => by
    intro hx hq hqnd hnd hend hund hdone g2 hr
    rcases queue with _ | ⟨cur, rest⟩
    · have h1 : some (Except.ok g) = some r := by rw [← hx]; rfl
      obtain rfl : g = g2 := Except.ok.inj ((Option.some.inj h1).trans hr)
      exact ⟨fun x h => h, hnd, hend, hund,
        fun x hxn m hm y hy => hdone x hxn (List.not_mem_nil x) m hm y hy⟩
    · rcases hexp : expandNode perm cur pml { g with trace := g.trace ++ [cur] } rest
          with e | ⟨g3, stack3⟩
      · rw [show exploreLoop perm pml (fuel + 1) (cur :: rest) g
            = some (Except.error e) from by simp [exploreLoop, hexp]] at hx
        obtain rfl : (Except.error e : Except MoveErr (ExploreGraph h w l)) = r :=
          Option.some.inj hx
        exact absurd hr (by simp)
      · rw [show exploreLoop perm pml (fuel + 1) (cur :: rest) g
            = exploreLoop perm pml fuel stack3 g3 from by
          simp only [exploreLoop, hexp]] at hx
        obtain ⟨news, hst, hnodes3, htr3, hnews_nd, hnews_not, _⟩ :=
          expandNode_spec perm cur pml _ rest g3 stack3 hexp
        have hcur : cur ∈ g.nodes := hq cur (List.mem_cons_self _ _)
        obtain ⟨hmono, hsub, hend3, hund3, hclos⟩ :=
          expandNode_inv perm cur pml _ rest g3 stack3 hexp hcur hend hund
        have hnodes3' : g3.nodes = g.nodes ++ news.reverse := hnodes3
        have hmono' : ∀ x ∈ g.nodes, x ∈ g3.nodes := hmono
        have hsub' : ∀ e ∈ g.edges, e ∈ g3.edges := hsub
        have hnews_not' : ∀ x ∈ news, x ∉ g.nodes := hnews_not
        have hq3 : ∀ x ∈ stack3, x ∈ g3.nodes := by
          intro x hxs
          rw [hst] at hxs
          rcases List.mem_append.mp hxs with hxs | hxs
          · rw [hnodes3']
            exact List.mem_append.mpr (.inr (List.mem_reverse.mpr hxs))
          · exact hmono' x (hq x (List.mem_cons_of_mem cur hxs))
        have hqnd3 : stack3.Nodup := by
          rw [hst]
          refine List.nodup_append.mpr
            ⟨hnews_nd, (List.nodup_cons.mp hqnd).2, ?_⟩
          intro x hxn hxr
          exact hnews_not' x hxn (hq x (List.mem_cons_of_mem cur hxr))
        have hnd3 : g3.nodes.Nodup := by
          rw [hnodes3']
          refine List.nodup_append.mpr
            ⟨hnd, List.nodup_reverse.mpr hnews_nd, ?_⟩
          intro x hxg hxr
          exact hnews_not' x (List.mem_reverse.mp hxr) hxg
        have hdone3 : ∀ x ∈ g3.nodes, x ∉ stack3 →
            ∀ m ∈ pml, ∀ y, graphStep perm x m = Except.ok y →
              y ∈ g3.nodes ∧ (y = x → (x, x) ∈ g3.edges) := by
          intro x hxg hxs m hm y hy
          rw [hnodes3'] at hxg
          rcases List.mem_append.mp hxg with hxg | hxg
          · by_cases hxc : x = cur
            · subst hxc
              exact hclos m hm y hy
            · have hxq : x ∉ cur :: rest := by
                intro hmem
                rcases List.mem_cons.mp hmem with hh | hh
                · exact hxc hh
                · exact hxs (by
                    rw [hst]
                    exact List.mem_append.mpr (.inr hh))
              obtain ⟨hy1, hy2⟩ := hdone x hxg hxq m hm y hy
              exact ⟨hmono' y hy1, fun hyx => hsub' _ (hy2 hyx)⟩
          · exfalso
            apply hxs
            rw [hst]
            exact List.mem_append.mpr (.inl (List.mem_reverse.mp hxg))
        obtain ⟨hmono2, hnd2, hend2, hund2, hclos2⟩ :=
          exploreLoop_inv perm pml fuel stack3 g3 r hx hq3 hqnd3 hnd3 hend3
            hund3 hdone3 g2 hr
        exact ⟨fun x hxg => hmono2 x (hmono' x hxg), hnd2, hend2, hund2, hclos2⟩

theorem make_graph_closure {h w l : Nat} [NeZero h] [NeZero w] [NeZero l]
    (pml : List CubeMove) (g : ExploreGraph h w l)
    (hg : make_graph h w l pml = some (Except.ok g)) :
    g.nodes.Nodup ∧
    (∀ e ∈ g.edges, e.1 ∈ g.nodes ∧ e.2 ∈ g.nodes) ∧
    g.edges.Pairwise (fun e f => f ≠ e ∧ f ≠ (e.2, e.1)) ∧
    RubikCube.from_dims_state h w l ∈ g.nodes ∧
    (∀ x ∈ g.nodes, ∀ m ∈ pml, ∀ y,
      graphStep (permOf pml) x m = Except.ok y →
      y ∈ g.nodes ∧ (y = x → (x, x) ∈ g.edges)) := by
  have hg' : exploreLoop (permOf pml) pml
      (6 ^ (2 * (h * w + h * l + l * w)) + 1)
      [RubikCube.from_dims_state h w l]
      (initGraph (RubikCube.from_dims_state h w l)) = some (Except.ok g) := hg
  obtain ⟨hmono, hnd, hend, hund, hclos⟩ :=
    exploreLoop_inv (permOf pml) pml _ _ _ _ hg'
      (by intro x hx; simpa [initGraph] using hx)
      (by simp)
      (by simp [initGraph])
      (by simp [initGraph])
      (by simp [initGraph])
      (by
        intro x hxg hxq
        exfalso
        apply hxq
        simpa [initGraph] using hxg)
      g rfl
  exact ⟨hnd, hend, hund, hmono _ (by simp [initGraph]), hclos⟩

theorem gfp_mem_edges {h w l : Nat} {g : ExploreGraph h w l} {p : Nat × Nat}
    (hnd : g.nodes.Nodup) (hp : p ∈ generate_file_pairs g) :
    ∃ e ∈ g.edges, e.1 ≠ e.2 ∧ p = idPair g e := by
  have hp' : p ∈ (sort_list ((make_simple_graph g).map Prod.fst)).flatMap
      (fun u => (sort_list (((make_simple_graph g).lookup u).getD [])).filterMap
        (fun v => if u < v then some (u, v) else none)) := hp
  obtain ⟨u, hu, hpu⟩ := List.mem_flatMap.mp hp'
  have hu' : u ∈ (make_simple_graph g).map Prod.fst := by
    simpa [sort_list] using hu
  rw [make_simple_graph_keys] at hu'
  obtain ⟨n, hn, rfl⟩ := List.mem_map.mp hu'
  rw [msg_lookup g hnd hn, Option.getD_some] at hpu
  obtain ⟨hp1, hplt, hp2mem⟩ := mem_filterMap_lt hpu
  have hp2' : p.2 ∈ ((neighborsOf g n).map (node_id g)).dedup := by
    simpa [sort_list] using hp2mem
  obtain ⟨y, hy, hyid⟩ := List.mem_map.mp (List.mem_dedup.mp hp2')
  rw [neighborsOf_eq_nbrsOfE] at hy
  have hlt : node_id g n < node_id g y := by
    rw [hyid]
    exact hplt
  rcases mem_nbrsOfE hy with he | he
  · refine ⟨(n, y), he, ?_, ?_⟩
    · intro hc
      rw [congrArg (node_id g) hc] at hlt
      exact absurd hlt (lt_irrefl _)
    · unfold idPair
      calc p = (p.1, p.2) := rfl
        _ = (node_id g n, node_id g y) := by rw [hp1, ← hyid]
        _ = _ := by rw [min_eq_left hlt.le, max_eq_right hlt.le]
  · refine ⟨(y, n), he, ?_, ?_⟩
    · intro hc
      rw [congrArg (node_id g) hc] at hlt
      exact absurd hlt (lt_irrefl _)
    · unfold idPair
      calc p = (p.1, p.2) := rfl
        _ = (node_id g n, node_id g y) := by rw [hp1, ← hyid]
        _ = _ := by rw [min_eq_right hlt.le, max_eq_left hlt.le]

theorem gfp_nodup {h w l : Nat} (g : ExploreGraph h w l)
    (hnd : g.nodes.Nodup) : (generate_file_pairs g).Nodup := by
  have hs := gfp_sorted g hnd
  exact hs.imp (fun hab heq => by
    subst heq
    rcases hab with hc | hc
    · exact absurd hc (lt_irrefl _)
    · exact absurd hc.2 (lt_irrefl _))

theorem length_le_of_nodup_subset {α : Type} [DecidableEq α] {l1 l2 : List α}
    (h1 : l1.Nodup) (hsub : ∀ x ∈ l1, x ∈ l2) : l1.length ≤ l2.length := by
  have e1 : l1.toFinset.card = l1.length := List.toFinset_card_of_nodup h1
  have e2 : l1.toFinset ⊆ l2.toFinset := by
    intro x hx
    simp only [List.mem_toFinset] at hx ⊢
    exact hsub x hx
  have e3 := Finset.card_le_card e2
  have e4 : l2.toFinset.card ≤ l2.length := List.toFinset_card_le l2
  omega

theorem generate_file_short {h w l : Nat} {g : ExploreGraph h w l}
    (hnd : g.nodes.Nodup) {e0 : CubeState h w l × CubeState h w l}
    (he0 : e0 ∈ g.edges) (hloop : e0.1 = e0.2) :
    (generate_file g).length < 1 + g.edges.length := by
  have hlen : (generate_file g).length
      = 1 + (generate_file_pairs g).length := by
    show ((toString g.nodes.length ++ " " ++ toString g.edges.length) ::
        (generate_file_pairs g).map
          (fun p => toString p.1 ++ " " ++ toString p.2)).length = _
    rw [List.length_cons, List.length_map]
    omega
  have hsub : ∀ p ∈ generate_file_pairs g,
      p ∈ (noLoopEdges g.edges).map (idPair g) := by
    intro p hp
    obtain ⟨e, he, hne, hpe⟩ := gfp_mem_edges hnd hp
    refine List.mem_map.mpr ⟨e, ?_, hpe.symm⟩
    unfold noLoopEdges
    refine List.mem_filter.mpr ⟨he, ?_⟩
    simp [hne]
  have hle : (generate_file_pairs g).length
      ≤ ((noLoopEdges g.edges).map (idPair g)).length :=
    length_le_of_nodup_subset (gfp_nodup g hnd) hsub
  rw [List.length_map] at hle
  have hstrict : (noLoopEdges g.edges).length < g.edges.length := by
    unfold noLoopEdges
    have hle2 := List.length_filter_le
      (fun e : CubeState h w l × CubeState h w l => !decide (e.1 = e.2)) g.edges
    rcases lt_or_eq_of_le hle2 with hcase | hcase
    · exact hcase
    · exfalso
      have hfeq := List.Sublist.eq_of_length (List.filter_sublist g.edges) hcase
      have he0' : e0 ∈ List.filter
          (fun e : CubeState h w l × CubeState h w l => !decide (e.1 = e.2))
          g.edges := by rw [hfeq]; exact he0
      have hc := (List.mem_filter.mp he0').2
      simp [hloop] at hc
  omega

set_option maxRecDepth 1000000 in
/-- C9 counterexample: exploring the 1x2x1 cube with permitted movements
{U2, R2, F2} reaches (via R2, F2, U2 from the solved state) a configuration
that R2 fixes, so the explorer records a self-loop edge; networkx counts it
in the edge count M, but the serializer's `u < v` filter writes no line for
it, so the file has fewer than `1 + M` lines. -/
theorem serializer_counterexample :
    ¬ ∀ g : ExploreGraph 1 2 1,
        make_graph 1 2 1 [CubeMove.U2, CubeMove.R2, CubeMove.F2]
          = some (Except.ok g) →
        (generate_file g).length = 1 + g.edges.length := by
  intro hall
  obtain ⟨g, hg⟩ := make_graph_ok 1 2 1 [CubeMove.U2, CubeMove.R2, CubeMove.F2]
    (by decide)
  obtain ⟨hnd, hend, hund, hroot, hclos⟩ := make_graph_closure _ g hg
  have hm_r2 : CubeMove.R2 ∈ [CubeMove.U2, CubeMove.R2, CubeMove.F2] := by
    decide
  have hm_f2 : CubeMove.F2 ∈ [CubeMove.U2, CubeMove.R2, CubeMove.F2] := by
    decide
  have hm_u2 : CubeMove.U2 ∈ [CubeMove.U2, CubeMove.R2, CubeMove.F2] := by
    decide
  have hs0 : chainState121 [] ∈ g.nodes := hroot
  have hstep1 : graphStep (permOf [CubeMove.U2, CubeMove.R2, CubeMove.F2])
      (chainState121 []) CubeMove.R2
      = Except.ok (chainState121 [CubeMove.R2]) := rfl
  have hs1 : chainState121 [CubeMove.R2] ∈ g.nodes :=
    (hclos _ hs0 CubeMove.R2 hm_r2 _ hstep1).1
  have hstep2 : graphStep (permOf [CubeMove.U2, CubeMove.R2, CubeMove.F2])
      (chainState121 [CubeMove.R2]) CubeMove.F2
      = Except.ok (chainState121 [CubeMove.R2, CubeMove.F2]) := rfl
  have hs2 : chainState121 [CubeMove.R2, CubeMove.F2] ∈ g.nodes :=
    (hclos _ hs1 CubeMove.F2 hm_f2 _ hstep2).1
  have hstep3 : graphStep (permOf [CubeMove.U2, CubeMove.R2, CubeMove.F2])
      (chainState121 [CubeMove.R2, CubeMove.F2]) CubeMove.U2
      = Except.ok (chainState121 [CubeMove.R2, CubeMove.F2, CubeMove.U2]) := rfl
  have hs3 : chainState121 [CubeMove.R2, CubeMove.F2, CubeMove.U2] ∈ g.nodes :=
    (hclos _ hs2 CubeMove.U2 hm_u2 _ hstep3).1
  have hfix : graphStep (permOf [CubeMove.U2, CubeMove.R2, CubeMove.F2])
      (chainState121 [CubeMove.R2, CubeMove.F2, CubeMove.U2]) CubeMove.R2
      = Except.ok (chainState121 [CubeMove.R2, CubeMove.F2, CubeMove.U2]) := by
    decide
  have hloop : (chainState121 [CubeMove.R2, CubeMove.F2, CubeMove.U2],
      chainState121 [CubeMove.R2, CubeMove.F2, CubeMove.U2]) ∈ g.edges :=
    (hclos _ hs3 CubeMove.R2 hm_r2 _ hfix).2 rfl
  have hshort := generate_file_short hnd hloop rfl
  have hcontra := hall g hg
  omega

/-- C9 (amended): on every explored graph without self-loops (no permitted
move fixes a reachable configuration) the serializer emits `1 + M` lines: the
header `"N M"` followed by one line `"u v"` per edge, where each edge
contributes its two dense ids in increasing order (`u < v`) exactly once, and
the data lines are sorted by `u`, then by `v`.  (With a self-loop the loop
edge is counted in `M` but no line is written for it — see the
counterexample.) -/
theorem serializer_format {h w l : Nat} [NeZero h] [NeZero w] [NeZero l]
    (pml : List CubeMove) (g : ExploreGraph h w l)
    (hg : make_graph h w l pml = some (Except.ok g))
    (hself : ∀ e ∈ g.edges, e.1 ≠ e.2) :
    generate_file g =
      (toString g.nodes.length ++ " " ++ toString g.edges.length) ::
        (generate_file_pairs g).map
          (fun p => toString p.1 ++ " " ++ toString p.2) ∧
    (generate_file g).length = 1 + g.edges.length ∧
    List.Perm (generate_file_pairs g) (g.edges.map (idPair g)) ∧
    (∀ p ∈ generate_file_pairs g, p.1 < p.2) ∧
    (generate_file_pairs g).Pairwise
      (fun p q => p.1 < q.1 ∨ (p.1 = q.1 ∧ p.2 < q.2)) := by
  obtain ⟨hnd, hend, hund, _, _⟩ := make_graph_closure pml g hg
  have hperm := gfp_perm_edges g hnd hend hself hund
  refine ⟨rfl, ?_, hperm, fun p hp => gfp_mem_lt g hp, gfp_sorted g hnd⟩
  show ((toString g.nodes.length ++ " " ++ toString g.edges.length) ::
      (generate_file_pairs g).map
        (fun p => toString p.1 ++ " " ++ toString p.2)).length
    = 1 + g.edges.length
  rw [List.length_cons, List.length_map, hperm.length_eq, List.length_map]
  omega


set_option maxRecDepth 1000000 in
theorem exploredGraph_111_U2_edges : exploredGraph_111_U2.edges
    = [(chain111 [CubeMove.U2], chain111 [])] := rfl

set_option maxRecDepth 1000000 in
/-- C9 witness: the serializer guarantees instantiated on the graph explored
from the solved 1x1x1 cube with the single permitted movement U2 (two nodes,
one non-loop edge). -/
theorem serializer_format_witness :
    generate_file exploredGraph_111_U2 =
      (toString exploredGraph_111_U2.nodes.length ++ " " ++
          toString exploredGraph_111_U2.edges.length) ::
        (generate_file_pairs exploredGraph_111_U2).map
          (fun p => toString p.1 ++ " " ++ toString p.2) ∧
    (generate_file exploredGraph_111_U2).length =
      1 + exploredGraph_111_U2.edges.length ∧
    List.Perm (generate_file_pairs exploredGraph_111_U2)
      (exploredGraph_111_U2.edges.map (idPair exploredGraph_111_U2)) ∧
    (∀ p ∈ generate_file_pairs exploredGraph_111_U2, p.1 < p.2) ∧
    (generate_file_pairs exploredGraph_111_U2).Pairwise
      (fun p q => p.1 < q.1 ∨ (p.1 = q.1 ∧ p.2 < q.2)) :=
  serializer_format [CubeMove.U2] exploredGraph_111_U2 rfl (by
    intro e he
    rw [exploredGraph_111_U2_edges] at he
    rw [List.mem_singleton.mp he]
    decide)
